import Mathlib

/-!
# Verification of the helm-image-updater planning core

A shallow embedding of the analytical core of `helm_image_updater`
(tag classification, stack classification, cloud detection, change
calculation, grouping strategies and the plan builder), together with
theorems settling the specification claims about it.

Python strings are modelled as Lean `String`s; the handful of string
primitives the source uses (`strip`, `startswith`, `split`) are
re-implemented over `List Char` so that all definitions evaluate by
kernel reduction.  Python dicts holding YAML documents are modelled as
association lists in insertion order (`Val.map`), scalars as `Val.str`
and `null`/`None` as `Val.nul`.  Raised Python exceptions are modelled
with `Except String`.
-/

/-! ## String primitives (models of Python `str` operations) -/

/-- Is the first character list a leading segment of the second?
Model of Python `str.startswith` on the underlying characters. -/
def listPfxC : List Char → List Char → Bool
  | [], _ => true
  | _ :: _, [] => false
  | a :: as, b :: bs => a == b && listPfxC as bs

/-- Model of Python `str.startswith`. -/
def strStartsWith (s pre : String) : Bool :=
  listPfxC pre.toList s.toList

/-- Strip leading and trailing whitespace characters; model of `str.strip()`. -/
def stripChars (l : List Char) : List Char :=
  ((l.dropWhile Char.isWhitespace).reverse.dropWhile Char.isWhitespace).reverse

/-- Model of Python `str.strip()`. -/
def pyStrip (s : String) : String :=
  String.mk (stripChars s.toList)

/-- Split a character list at every occurrence of a separator character;
model of Python `str.split(sep)` for a one-character separator (which is
also the behaviour of splitting on `"."` or `"-"` used by the source). -/
def splitCh (c : Char) : List Char → List (List Char)
  | [] => [[]]
  | a :: t =>
    if a == c then [] :: splitCh c t
    else
      match splitCh c t with
      | h :: r => (a :: h) :: r
      | [] => [[a]]

/-- Model of Python `path.split(sep)` for a one-character separator. -/
def splitOnCh (c : Char) (s : String) : List String :=
  (splitCh c s.toList).map String.mk

/-- Code-point lexicographic comparison of character lists (Python string `<=`). -/
def charListLe : List Char → List Char → Bool
  | [], _ => true
  | _ :: _, [] => false
  | a :: as, b :: bs => if a == b then charListLe as bs else decide (a.toNat < b.toNat)

/-- Insert a string into an ascending list; helper for `sortStrings`. -/
def insertSorted (a : String) : List String → List String
  | [] => [a]
  | b :: t => if charListLe a.toList b.toList then a :: b :: t else b :: insertSorted a t

/-- Stable ascending sort; model of Python `sorted` on strings. -/
def sortStrings (l : List String) : List String :=
  l.foldr insertSorted []

/-! ## `config.py`: static configuration tables -/

/-- `DEV_STACK_MAPPING`: cloud provider to development stack name, in the
source dict's insertion order. -/
def DEV_STACK_MAPPING : List (String × String) :=
  [("gcp", "dev-keboola-gcp-us-central1"),
   ("azure", "kbc-testing-azure-east-us-2"),
   ("aws", "dev-keboola-aws-eu-west-1")]

/-- `SUPPORTED_CLOUD_PROVIDERS`. -/
def SUPPORTED_CLOUD_PROVIDERS : List String := ["aws", "azure", "gcp"]

/-- `EXCLUDED_STACKS`. -/
def EXCLUDED_STACKS : List String :=
  ["dev-keboola-gcp-us-east1-e2e", "dev-keboola-azure-east-us-2-e2e",
   "dev-keboola-aws-us-east-1-e2e"]

/-- Configuration record of one canary stack (`CANARY_STACKS` values). -/
structure CanaryStack where
  stack : String
  base_branch : String
deriving DecidableEq, Repr

/-- `CANARY_STACKS`: canary tag prefixes and their stack configuration. -/
def CANARY_STACKS : List (String × CanaryStack) :=
  [("canary-orion", { stack := "dev-keboola-canary-orion", base_branch := "canary-orion" })]

/-- `IGNORED_FOLDERS`. -/
def IGNORED_FOLDERS : List String :=
  [".venv", "aws", ".git", ".github", "utils", "docs", "apps"]

/-! ## `tag_classification.py` -/

/-- `TagType` enum. -/
inductive TagType where
  | dev
  | production
  | canary
  | semver
  | invalid
deriving DecidableEq, Repr

/-- Is the character list a non-empty run of ASCII digits (`\d+`)? -/
def isDigits (l : List Char) : Bool :=
  !l.isEmpty && l.all Char.isDigit

/-- Does the string match the regex `^v?\d+\.\d+\.\d+$`?  The optional
leading `v` is consumed first (a digit can never match `v`), and
`\d+\.\d+\.\d+` holds exactly when splitting at `.` yields three
non-empty digit runs. -/
def isSemverTag (t : String) : Bool :=
  let core := match t.toList with
    | 'v' :: rest => rest
    | l => l
  match splitCh '.' core with
  | [a, b, c] => isDigits a && isDigits b && isDigits c
  | _ => false

/-- `detect_tag_type`: classify an image tag string. -/
def detect_tag_type (tag : String) : TagType :=
  if tag = "" || pyStrip tag = "" then .invalid
  else
    let t := pyStrip tag
    if strStartsWith t "dev-" then .dev
    else if strStartsWith t "production-" then .production
    else if (CANARY_STACKS.map Prod.fst).any (fun p => strStartsWith t p) then .canary
    else if isSemverTag t then .semver
    else .invalid

/-! ## `stack_classification.py` -/

/-- `StackClassification` record. -/
structure StackClassification where
  name : String
  is_dev : Bool
  is_production : Bool
  is_canary : Bool
  is_excluded : Bool
  is_ignored : Bool
deriving DecidableEq, Repr

/-- `classify_stack`: classify a stack directory name against the
static configuration tables. -/
def classify_stack (stack_name : String) : StackClassification :=
  let canary_stack_names := CANARY_STACKS.map (fun p => p.2.stack)
  let dev_stack_names := DEV_STACK_MAPPING.map Prod.snd
  { name := stack_name
    is_dev := dev_stack_names.contains stack_name
    is_production :=
      !IGNORED_FOLDERS.contains stack_name
      && !EXCLUDED_STACKS.contains stack_name
      && !dev_stack_names.contains stack_name
      && !canary_stack_names.contains stack_name
    is_canary := canary_stack_names.contains stack_name
    is_excluded := EXCLUDED_STACKS.contains stack_name
    is_ignored := IGNORED_FOLDERS.contains stack_name }

/-- `get_dev_stacks`: filter a stack list down to development stacks. -/
def get_dev_stacks (all_stacks : List String) : List String :=
  all_stacks.filter (fun stack => (classify_stack stack).is_dev)

/-! ## `cloud_detection.py` -/

/-- A parsed `shared-values.yaml` document, modelled as an association
list of scalar fields (only `cloudProvider` is ever consulted). -/
abbrev SharedValues := List (String × String)

/-- The `read_shared_values_yaml` capability of the I/O layer:
`none` models a missing document or a `None` parse result. -/
abbrev SharedReader := String → Option SharedValues

/-- `get_stack_cloud_provider`: strict cloud-provider lookup with
validation.  `.error` models the raised `ValueError`. -/
def get_stack_cloud_provider (stack : String) (readShared : SharedReader) :
    Except String String :=
  let dev_cloud := (DEV_STACK_MAPPING.find? (fun p => p.2 == stack)).map Prod.fst
  match readShared stack with
  | none => .error ("Missing cloudProvider in " ++ stack ++ "/shared-values.yaml")
  | some shared_values =>
    match shared_values.find? (fun p => p.1 == "cloudProvider") with
    | none => .error ("Missing cloudProvider in " ++ stack ++ "/shared-values.yaml")
    | some kv =>
      let yaml_cloud := kv.2
      if !SUPPORTED_CLOUD_PROVIDERS.contains yaml_cloud then
        .error ("Unsupported cloudProvider '" ++ yaml_cloud ++ "' in " ++ stack
          ++ "/shared-values.yaml")
      else
        match dev_cloud with
        | some dc =>
          if dc ≠ yaml_cloud then
            .error ("Dev stack " ++ stack ++ " cloud mismatch: expected " ++ dc
              ++ ", found " ++ yaml_cloud)
          else .ok yaml_cloud
        | none => .ok yaml_cloud

/-! ## `models.py`: enums and data records -/

/-- `UpdateStrategy` enum. -/
inductive UpdateStrategy where
  | dev
  | production
  | canary
  | override
  | invalid
deriving DecidableEq, Repr

/-- `GroupingStrategy` enum. -/
inductive GroupingStrategy where
  | legacy
  | single
  | stack
  | cloudMultiStage
deriving DecidableEq, Repr

/-- `PRType` enum. -/
inductive PRType where
  | standard
  | multiStageDev
  | multiStageProd
  | canary
deriving DecidableEq, Repr

/-- `PRType.value`: the string tag carried in PR-group dicts. -/
def PRType.value : PRType → String
  | .standard => "standard"
  | .multiStageDev => "multi_stage_dev"
  | .multiStageProd => "multi_stage_prod"
  | .canary => "canary"

/-! ## YAML document model and the change calculator (`plan_builder.py`) -/

/-- A YAML document value: a scalar string, `null`, or a mapping given
as an association list in insertion order (Python `dict`). -/
inductive Val where
  | str (s : String)
  | nul
  | map (entries : List (String × Val))

/-- Python `dict.get(k, d)`: the value of the first binding of `k`, or
the default. -/
def findD (es : List (String × Val)) (k : String) (d : Val) : Val :=
  match es with
  | [] => d
  | (k', v') :: rest => if k' == k then v' else findD rest k d

/-- Python `dict[k] = v`: replace the first binding of `k` in place,
or append a new binding at the end (insertion-order semantics). -/
def setKey (es : List (String × Val)) (k : String) (v : Val) : List (String × Val) :=
  match es with
  | [] => [(k, v)]
  | (k', v') :: rest => if k' == k then (k', v) :: rest else (k', v') :: setKey rest k v

/-- The extra-tag path walk `for part in path.split("."): current = current.get(part, {})`
with the surrounding `except (AttributeError, TypeError)` handler: stepping
into a non-dict yields `none` (the caught exception). -/
def pyGet (v : Val) (parts : List String) : Option Val :=
  match parts with
  | [] => some v
  | k :: rest =>
    match v with
    | .map es => pyGet (findD es k (.map [])) rest
    | _ => none

/-- Two-level access `data.get(k1, {}).get(k2, dflt)` with *no* exception
handler: `.get` on a non-dict raises `AttributeError` (modelled `.error`). -/
def pyGet2 (v : Val) (k1 k2 : String) (dflt : Val) : Except String Val :=
  match v with
  | .map es =>
    match findD es k1 (.map []) with
    | .map es2 => .ok (findD es2 k2 dflt)
    | _ => .error "AttributeError"
  | _ => .error "AttributeError"

/-- Python `==` between a YAML value and a string: dicts and `None`
never equal a string. -/
def pyEqStr (pv : Val) (s : String) : Bool :=
  match pv with
  | .str t => t == s
  | _ => false

/-- The scalar value of a YAML node as the Python code stores it in
`TagChange.old_value` comparisons: `some` for a string scalar, `none`
for everything else (absent, `None`, dict). -/
def valToOptStr (pv : Val) : Option String :=
  match pv with
  | .str t => some t
  | _ => none

/-- `TagChange` record. -/
structure TagChange where
  path : String
  old_value : Option String
  new_value : String
  change_type : String
deriving DecidableEq, Repr

/-- One extra-tag request `{path, value}`. -/
structure ExtraTag where
  path : String
  value : String
deriving DecidableEq, Repr

/-- The `image.tag` block of `calculate_tag_changes`. -/
def calc_img (v : Val) (image_tag : String) : Except String (List TagChange) :=
  if image_tag ≠ "" && pyStrip image_tag ≠ "" then
    match pyGet2 v "image" "tag" (.str "") with
    | .error e => .error e
    | .ok current_tag =>
      if pyEqStr current_tag image_tag then .ok []
      else .ok [{ path := "image.tag", old_value := valToOptStr current_tag,
                  new_value := image_tag, change_type := "image_tag" }]
  else .ok []

/-- Resolve an extra-tag path: the guarded walk followed by
`if isinstance(current_value, dict): current_value = None`. -/
def resolveExtra (v : Val) (path : String) : Option String :=
  match pyGet v (splitOnCh '.' path) with
  | some (.str s) => some s
  | _ => none

/-- One extra-tag comparison in `calculate_tag_changes`. -/
def calc_extra (v : Val) (e : ExtraTag) : List TagChange :=
  let current_value := resolveExtra v e.path
  if current_value == some e.value then []
  else [{ path := e.path, old_value := current_value,
          new_value := e.value, change_type := "extra_tag" }]

/-- The `commit_sha` block of `calculate_tag_changes` (guarded by the
truthiness of `commit_sha`). -/
def calc_sha (v : Val) (commit_sha : Option String) : Except String (List TagChange) :=
  match commit_sha with
  | none => .ok []
  | some sha =>
    if sha = "" then .ok []
    else
      match pyGet2 v "image" "commit_sha" .nul with
      | .error e => .error e
      | .ok current_sha =>
        if pyEqStr current_sha sha then .ok []
        else .ok [{ path := "image.commit_sha", old_value := valToOptStr current_sha,
                    new_value := sha, change_type := "commit_sha" }]

/-- `calculate_tag_changes`: main tag, then extra tags in input order,
then commit SHA.  Exceptions escaping the unguarded `.get` chains
propagate (`.error`). -/
def calculate_tag_changes (current_data : Val) (image_tag : String)
    (extra_tags : List ExtraTag) (commit_sha : Option String) :
    Except String (List TagChange) := do
  let a ← calc_img current_data image_tag
  let b := extra_tags.flatMap (calc_extra current_data)
  let c ← calc_sha current_data commit_sha
  .ok (a ++ b ++ c)

/-- Set the leaf at a dotted path, creating intermediate `{}` levels for
missing keys; an existing non-dict intermediate (or a non-dict root)
raises `TypeError`.  Model of the per-change loop body of
`_apply_changes_to_data`. -/
def setPath (v : Val) (parts : List String) (value : String) : Except String Val :=
  match parts with
  | [] => .error "IndexError"
  | [k] =>
    match v with
    | .map es => .ok (.map (setKey es k (.str value)))
    | _ => .error "TypeError"
  | k :: rest =>
    match v with
    | .map es =>
      match findD es k (.map []) with
      | .map es2 => (setPath (.map es2) rest value).map (fun c => .map (setKey es k c))
      | _ => .error "TypeError"
    | _ => .error "TypeError"

/-- `_apply_changes_to_data`: apply the changes in order (the deep copy
is implicit in the functional model). -/
def _apply_changes_to_data (data : Val) (changes : List TagChange) : Except String Val :=
  match changes with
  | [] => .ok data
  | change :: rest => do
    let d ← setPath data (splitOnCh '.' change.path) change.new_value
    _apply_changes_to_data d rest

/-! ## Plan/config records -/

/-- `FileChange` record.  The old/new manifest contents are kept as
parsed documents (`Val`); the YAML serialization itself is I/O
formatting outside the analytical core. -/
structure FileChange where
  file_path : String
  old_content : Val
  new_content : Val
  change_description : String

/-- One entry of the `stack_changes` list built by
`_calculate_all_changes` (a dict in the source). -/
structure StackChange where
  stack : String
  file_change : FileChange
  changes : List TagChange

/-- One PR group dict as produced by the grouping code.  `pr_type` is
the string tag actually stored in the dict. -/
structure PRGroup where
  stackNames : List String  -- the dict key 'stacks'
  changes : List StackChange
  base_branch : String
  pr_type : String
  cloud_provider : Option String := none

/-- `PRPlan` record.  The PR title/body/commit-message strings are
presentation-only formatting (generated by `message_generation.py`) and
are omitted from the model. -/
structure PRPlan where
  branch_name : String
  base_branch : String
  auto_merge : Bool
  files_to_commit : List String

/-- `UpdatePlan` record. -/
structure UpdatePlan where
  strategy : UpdateStrategy
  helm_chart : String
  image_tag : String
  extra_tags : List ExtraTag := []
  target_stacks : List String := []
  excluded_stacks : List String := []
  file_changes : List FileChange := []
  pr_plans : List PRPlan := []
  dry_run : Bool := false
  multi_stage : Bool := false
  override_stack : String := ""
  metadata : List (String × String) := []

/-- `UpdatePlan.has_changes`. -/
def UpdatePlan.has_changes (p : UpdatePlan) : Bool :=
  !p.file_changes.isEmpty

/-- `EnvironmentConfig` record (the parsed environment). -/
structure EnvironmentConfig where
  helm_chart : String
  image_tag : String
  github_token : String := ""
  automerge : Bool := true
  dry_run : Bool := false
  multi_stage : Bool := false
  grouping_strategy : GroupingStrategy := .legacy
  target_path : String := "."
  commit_sha : Bool := false
  override_stack : String := ""
  extra_tags : List ExtraTag := []
  metadata : List (String × String) := []

/-! ## `grouping_strategies.py` -/

/-- `GroupingContext`: the data the handler consults.  The `io_layer`
member is represented by its one used capability, `read_shared_values_yaml`. -/
structure GroupingContext where
  config : EnvironmentConfig
  plan : UpdatePlan
  stack_changes : List StackChange
  readShared : SharedReader

/-- `_get_canary_base_branch` (identical in `grouping_strategies.py`
and `plan_builder.py`). -/
def _get_canary_base_branch (image_tag : String) : String :=
  if strStartsWith image_tag "canary-" then
    let parts := splitOnCh '-' image_tag
    let canary_tag_pfx := if parts.length > 1 then "canary-" ++ parts.getD 1 "" else ""
    match CANARY_STACKS.find? (fun p => p.1 == canary_tag_pfx) with
    | some p => p.2.base_branch
    | none => "main"
  else "main"

/-- `_create_single_pr_group`. -/
def _create_single_pr_group (stack_changes : List StackChange)
    (base_branch : String) (pr_type : PRType) : List PRGroup :=
  [{ stackNames := stack_changes.map (·.stack), changes := stack_changes,
     base_branch := base_branch, pr_type := pr_type.value }]

/-- `_create_per_stack_groups`. -/
def _create_per_stack_groups (stack_changes : List StackChange) : List PRGroup :=
  stack_changes.map (fun sc =>
    { stackNames := [sc.stack], changes := [sc], base_branch := "main",
      pr_type := PRType.standard.value })

/-- One stack change annotated with its resolved cloud provider and
dev/prod stage. -/
abbrev Annotated := StackChange × String × String

/-- The contents of one `(cloud, stage)` cell of the grouping matrix:
the bucket-append loop visits `stack_changes` in order, so each cell is
the order-preserving filter of the annotated list. -/
def cellChanges (annotated : List Annotated) (cloud stage : String) : List StackChange :=
  (annotated.filter (fun x => x.2.1 == cloud && x.2.2 == stage)).map Prod.fst

/-- Emit PR groups for the non-empty cells: all `prod` groups first,
then all `dev` groups, providers in the fixed order aws, azure, gcp.
Shared by `_apply_cloud_multi_stage_grouping` and the identical loop in
`plan_builder._group_changes_for_prs`. -/
def cloudStageGroups (annotated : List Annotated) : List PRGroup :=
  ["prod", "dev"].flatMap (fun stage =>
    ["aws", "azure", "gcp"].filterMap (fun cloud =>
      let changes := cellChanges annotated cloud stage
      if changes.isEmpty then none
      else some { stackNames := changes.map (·.stack), changes := changes,
                  base_branch := "main",
                  pr_type := if stage == "dev" then PRType.multiStageDev.value
                             else PRType.multiStageProd.value,
                  cloud_provider := some cloud }))

/-- The annotation loop `for sc in stack_changes: cloud = get_stack_cloud_provider(...)`:
each stack change is paired with its cloud provider (the raised
`ValueError` propagating out of the loop) and its dev/prod stage. -/
def annotateList (stg : StackChange → String) (readShared : SharedReader) :
    List StackChange → Except String (List Annotated)
  | [] => .ok []
  | sc :: rest => do
    let cloud ← get_stack_cloud_provider sc.stack readShared
    let more ← annotateList stg readShared rest
    .ok ((sc, cloud, stg sc) :: more)

/-- The handler's stage test: `classify_stack(stack).is_dev`. -/
def stageHandler (sc : StackChange) : String :=
  if (classify_stack sc.stack).is_dev then "dev" else "prod"

/-- Annotate each stack change with its cloud (via
`get_stack_cloud_provider`, whose `ValueError` propagates) and its
dev/prod stage per `classify_stack(...).is_dev`. -/
def annotateHandler (ctx : GroupingContext) : Except String (List Annotated) :=
  annotateList stageHandler ctx.readShared ctx.stack_changes

/-- `GroupingStrategyHandler._apply_cloud_multi_stage_grouping`. -/
def _apply_cloud_multi_stage_grouping (ctx : GroupingContext) :
    Except String (List PRGroup) :=
  if ctx.plan.strategy ≠ .production then
    .ok (_create_single_pr_group ctx.stack_changes "main" .standard)
  else do
    let annotated ← annotateHandler ctx
    .ok (cloudStageGroups annotated)

/-- `GroupingStrategyHandler._apply_legacy_grouping`. -/
def _apply_legacy_grouping (ctx : GroupingContext) : Except String (List PRGroup) :=
  if ctx.plan.strategy = .canary then
    .ok (_create_single_pr_group ctx.stack_changes
      (_get_canary_base_branch ctx.plan.image_tag) .canary)
  else if ctx.config.multi_stage then
    _apply_cloud_multi_stage_grouping ctx
  else if ctx.plan.strategy = .dev then
    .ok (_create_single_pr_group ctx.stack_changes "main" .standard)
  else if ctx.plan.strategy = .production then
    if ctx.config.automerge then
      .ok (_create_single_pr_group ctx.stack_changes "main" .standard)
    else
      .ok (_create_per_stack_groups ctx.stack_changes)
  else
    .ok (_create_single_pr_group ctx.stack_changes "main" .standard)

/-- `GroupingStrategyHandler.group_changes`: strategy dispatch, with the
override-stack special case first. -/
def group_changes (ctx : GroupingContext) : Except String (List PRGroup) :=
  if ctx.plan.override_stack ≠ "" then
    .ok (_create_single_pr_group ctx.stack_changes "main" .standard)
  else
    match ctx.config.grouping_strategy with
    | .legacy => _apply_legacy_grouping ctx
    | .single => .ok (_create_single_pr_group ctx.stack_changes "main" .standard)
    | .stack => .ok (_create_per_stack_groups ctx.stack_changes)
    | .cloudMultiStage => _apply_cloud_multi_stage_grouping ctx

/-- `should_auto_merge` (`grouping_strategies.py`): pure auto-merge
policy per PR type. -/
def should_auto_merge (pr_type : PRType) (user_requested : Bool)
    (_strategy : GroupingStrategy) : Bool :=
  if pr_type = .canary then true
  else if pr_type = .multiStageProd then false
  else user_requested

/-! ## `plan_builder.py` -/

/-- The ambient state the plan builder reads: the directory listing of
the working tree, the `os.path.isdir` test, the tag-manifest reader
(`none` models a missing file or an unparsable one, both of which are
skipped with a warning), the shared-values reader, and the random
branch-name suffix drawn by `_create_pr_plan`. -/
structure World where
  dirEntries : List String
  isDirF : String → Bool
  readTag : String → Option Val
  readShared : SharedReader
  suffix : String

/-- `_determine_strategy`: the extra-tag inspection loop. -/
def extraTagLoop : List ExtraTag → UpdateStrategy
  | [] => .dev
  | e :: rest =>
    match detect_tag_type e.value with
    | .dev => .dev
    | .production => .production
    | .semver => .production
    | _ => extraTagLoop rest

/-- `_determine_strategy`. -/
def _determine_strategy (config : EnvironmentConfig) : UpdateStrategy :=
  if config.override_stack ≠ "" then .override
  else
    let tag_type := if config.image_tag ≠ "" then detect_tag_type config.image_tag
                    else TagType.invalid
    match tag_type with
    | .dev => .dev
    | .production => .production
    | .semver => .production
    | .canary => .canary
    | .invalid => extraTagLoop config.extra_tags

/-- `_discover_stacks`: directory entries that are directories and not
ignored, sorted ascending. -/
def _discover_stacks (world : World) : List String :=
  sortStrings (world.dirEntries.filter
    (fun item => world.isDirF item && !IGNORED_FOLDERS.contains item))

/-- `_select_target_stacks`. -/
def _select_target_stacks (all_stacks : List String) (strategy : UpdateStrategy)
    (config : EnvironmentConfig) : List String :=
  match strategy with
  | .override =>
    if all_stacks.contains config.override_stack then [config.override_stack] else []
  | .dev => get_dev_stacks all_stacks
  | .production =>
    all_stacks.filter (fun stack =>
      let c := classify_stack stack
      !c.is_canary && !c.is_excluded)
  | .canary =>
    let parts := splitOnCh '-' config.image_tag
    let canary_tag_pfx :=
      if config.image_tag ≠ "" && parts.length > 1 then "canary-" ++ parts.getD 1 ""
      else ""
    match CANARY_STACKS.find? (fun p => p.1 == canary_tag_pfx) with
    | some p => if all_stacks.contains p.2.stack then [p.2.stack] else []
    | none => []
  | .invalid => []

/-- Render an `old_value` the way Python prints it in the change
description (`None` for absent). -/
def showOptStr : Option String → String
  | some s => s
  | none => "None"

/-- `_calculate_all_changes`: per-stack manifest read, change
calculation (whose exceptions propagate) and change-description
assembly; stacks with a missing manifest or an empty change list are
skipped. -/
def _calculate_all_changes (plan : UpdatePlan) (world : World) :
    Except String (List StackChange) :=
  go plan.target_stacks
where
  go : List String → Except String (List StackChange)
  | [] => .ok []
  | stack :: rest => do
    let tag_file_path := stack ++ "/" ++ plan.helm_chart ++ "/tag.yaml"
    match world.readTag tag_file_path with
    | none => go rest
    | some current_data => do
      let changes ← calculate_tag_changes current_data plan.image_tag plan.extra_tags
        ((plan.metadata.find? (fun p => p.1 == "commit_sha")).map Prod.snd)
      if changes.isEmpty then go rest
      else do
        let new_data ← _apply_changes_to_data current_data changes
        let descriptions := changes.map (fun c =>
          c.path ++ " from " ++ showOptStr c.old_value ++ " to " ++ c.new_value)
        let sc : StackChange :=
          { stack := stack
            file_change :=
              { file_path := tag_file_path
                old_content := current_data
                new_content := new_data
                change_description := "Updated " ++ stack ++ "/" ++ plan.helm_chart
                  ++ "/tag.yaml: " ++ String.intercalate ", " descriptions }
            changes := changes }
        let more ← go rest
        .ok (sc :: more)

/-- The stage test of `plan_builder`'s multi-stage loop:
`stack in DEV_STACK_MAPPING.values()`. -/
def isDevByMapping (stack : String) : Bool :=
  DEV_STACK_MAPPING.any (fun p => p.2 == stack)

/-- `_group_changes_for_prs` (`plan_builder.py`): the grouping actually
used by `prepare_plan`. -/
def _group_changes_for_prs (stack_changes : List StackChange) (plan : UpdatePlan)
    (config : EnvironmentConfig) (readShared : SharedReader) :
    Except String (List PRGroup) :=
  if plan.strategy = .canary then
    .ok [{ stackNames := stack_changes.map (·.stack), changes := stack_changes,
           base_branch := _get_canary_base_branch plan.image_tag, pr_type := "canary" }]
  else if plan.multi_stage && plan.strategy = .production then do
    let annotated ← annotateList
      (fun sc => if isDevByMapping sc.stack then "dev" else "prod") readShared stack_changes
    .ok (cloudStageGroups annotated)
  else if stack_changes.length = 1 || plan.strategy = .dev
      || plan.strategy = .override then
    .ok [{ stackNames := stack_changes.map (·.stack), changes := stack_changes,
           base_branch := "main", pr_type := "standard" }]
  else if config.automerge then
    .ok [{ stackNames := stack_changes.map (·.stack), changes := stack_changes,
           base_branch := "main", pr_type := "standard" }]
  else
    .ok (stack_changes.map (fun sc =>
      { stackNames := [sc.stack], changes := [sc], base_branch := "main",
        pr_type := "standard" }))

/-- `_should_auto_merge` (`plan_builder.py`): string-tag variant used by
`_create_pr_plan`. -/
def _should_auto_merge (plan : UpdatePlan) (pr_type : String)
    (user_requested : Bool) : Bool :=
  if plan.strategy = .canary then true
  else if pr_type == "multi_stage_prod" then false
  else user_requested

/-- `_create_pr_plan`: branch-name synthesis (with the random 4-char
suffix supplied by the environment), 100-character truncation, the
auto-merge decision and the files-to-commit list.  Title/body/commit
message strings are omitted (see `PRPlan`). -/
def _create_pr_plan (pr_group : PRGroup) (plan : UpdatePlan)
    (config : EnvironmentConfig) (suffix : String) : PRPlan :=
  let cloud_suffix := match pr_group.cloud_provider with
    | some c => if c ≠ "" then "-" ++ c else ""
    | none => ""
  let branch_name :=
    if strStartsWith pr_group.pr_type "multi_stage_" then
      let stage := pr_group.pr_type.drop 12
      plan.helm_chart ++ "-" ++ stage ++ "-sync" ++ cloud_suffix ++ "-"
        ++ plan.image_tag ++ "-" ++ suffix
    else if pr_group.pr_type == "canary" then
      plan.helm_chart ++ "-canary-" ++ plan.image_tag ++ "-" ++ suffix
    else
      plan.helm_chart ++ "-" ++ plan.image_tag ++ "-" ++ suffix
  { branch_name := branch_name.take 100
    base_branch := pr_group.base_branch
    auto_merge := _should_auto_merge plan pr_group.pr_type config.automerge
    files_to_commit := pr_group.changes.map (·.file_change.file_path) }

/-- The target-stack set `prepare_plan` computes (discovery then
strategy-driven selection). -/
def planTargets (config : EnvironmentConfig) (world : World) : List String :=
  _select_target_stacks (_discover_stacks world) (_determine_strategy config) config

/-- The `UpdatePlan` as it stands after strategy determination, stack
discovery and target selection (the first half of `prepare_plan`). -/
def basePlan (config : EnvironmentConfig) (world : World) : UpdatePlan :=
  { strategy := _determine_strategy config, helm_chart := config.helm_chart,
    image_tag := config.image_tag, extra_tags := config.extra_tags,
    dry_run := config.dry_run, multi_stage := config.multi_stage,
    override_stack := config.override_stack, metadata := config.metadata,
    target_stacks := planTargets config world }

/-- `prepare_plan`: the complete planning pipeline.  The canary branch
switch is an I/O action on the working tree; the `World` is the state
after any such switch. -/
def prepare_plan (config : EnvironmentConfig) (world : World) :
    Except String UpdatePlan :=
  let plan1 := basePlan config world
  if plan1.target_stacks.isEmpty then .ok plan1
  else do
    let stack_changes ← _calculate_all_changes plan1 world
    if stack_changes.isEmpty then
      .error ("\nError: tag.yaml for chart " ++ plan1.helm_chart
        ++ " does not exist in any stack or all tags are already up to date (noop change).")
    else
      let plan2 := { plan1 with file_changes := stack_changes.map (·.file_change) }
      let pr_groups ← _group_changes_for_prs stack_changes plan2 config world.readShared
      .ok { plan2 with
            pr_plans := pr_groups.map (fun g => _create_pr_plan g plan2 config world.suffix) }

/-! ## Claim-side specification functions

These two definitions follow the words of spec claims (for refinement
comparison with the source-derived functions above). -/

/-- Claim-side tag classifier (C6's words): the emptiness check, then
priority prefix matching and the semver shape test applied to the tag
string itself. -/
def claimTagClassify (t : String) : TagType :=
  if t = "" || pyStrip t = "" then .invalid
  else if strStartsWith t "dev-" then .dev
  else if strStartsWith t "production-" then .production
  else if (CANARY_STACKS.map Prod.fst).any (fun p => strStartsWith t p) then .canary
  else if isSemverTag t then .semver
  else .invalid

/-- Claim-side strategy determination (C9's words): override wins; the
primary tag maps directly; otherwise the first extra tag classifying as
DEV or as PRODUCTION/SEMVER decides; else DEV. -/
def claimDetermineStrategy (config : EnvironmentConfig) : UpdateStrategy :=
  if config.override_stack ≠ "" then .override
  else
    match detect_tag_type config.image_tag with
    | .dev => .dev
    | .production => .production
    | .semver => .production
    | .canary => .canary
    | .invalid =>
      match config.extra_tags.find? (fun e =>
          detect_tag_type e.value == TagType.dev
          || detect_tag_type e.value == TagType.production
          || detect_tag_type e.value == TagType.semver) with
      | some e => if detect_tag_type e.value = .dev then .dev else .production
      | none => .dev

/-! ## Lemmas about stripping -/

lemma strMk_eq_empty_iff (l : List Char) : String.mk l = "" ↔ l = [] := by
  constructor
  · intro h
    exact congrArg String.toList h
  · intro h
    rw [h]

lemma dropWhile_head_false {p : α → Bool} :
    ∀ {l a t}, List.dropWhile p l = a :: t → p a = false := by
  intro l
  induction l with
  | nil => intro a t h; simp at h
  | cons x xs ih =>
    intro a t h
    by_cases hx : p x
    · rw [List.dropWhile_cons_of_pos hx] at h
      exact ih h
    · rw [List.dropWhile_cons_of_neg hx] at h
      cases h
      simpa using hx

lemma stripChars_eq_nil_iff (l : List Char) :
    stripChars l = [] ↔ ∀ c ∈ l, c.isWhitespace := by
  unfold stripChars
  rw [List.reverse_eq_nil_iff, List.dropWhile_eq_nil_iff]
  constructor
  · intro h c hc
    have hsplit := List.takeWhile_append_dropWhile Char.isWhitespace l
    rw [← hsplit] at hc
    rcases List.mem_append.mp hc with h1 | h1
    · exact List.mem_takeWhile_imp h1
    · exact h c (List.mem_reverse.mpr h1)
  · intro h c hc
    exact h c ((List.dropWhile_sublist _).subset (List.mem_reverse.mp hc))

lemma stripChars_idem_nil {l : List Char} (h : stripChars l ≠ []) :
    ∃ c ∈ stripChars l, ¬ c.isWhitespace := by
  unfold stripChars at h ⊢
  set m := (l.dropWhile Char.isWhitespace).reverse with hm
  rcases hC : List.dropWhile Char.isWhitespace m with _ | ⟨c, t⟩
  · exact absurd (by rw [hC]; rfl) h
  · refine ⟨c, ?_, ?_⟩
    · exact List.mem_reverse.mpr (List.mem_cons_self c t)
    · simpa using dropWhile_head_false hC

lemma pyStrip_pyStrip_eq_empty_iff (t : String) :
    pyStrip (pyStrip t) = "" ↔ pyStrip t = "" := by
  unfold pyStrip
  rw [strMk_eq_empty_iff, strMk_eq_empty_iff]
  have htl : (String.mk (stripChars t.toList)).toList = stripChars t.toList := rfl
  rw [htl, stripChars_eq_nil_iff]
  constructor
  · intro h
    by_contra hne
    obtain ⟨c, hc, hcw⟩ := stripChars_idem_nil hne
    exact hcw (h c hc)
  · intro h
    rw [h]
    intro c hc
    simp at hc

/-! ## Claim C2: auto-merge policy -/

/-- C2: `should_auto_merge` returns True for CANARY regardless of the
user's request, False for MULTI_STAGE_PROD regardless of the request,
and exactly the user's request for STANDARD and MULTI_STAGE_DEV, for
every grouping strategy argument. -/
theorem should_auto_merge_policy (user_requested : Bool) (strategy : GroupingStrategy) :
    should_auto_merge .canary user_requested strategy = true
    ∧ should_auto_merge .multiStageProd user_requested strategy = false
    ∧ should_auto_merge .standard user_requested strategy = user_requested
    ∧ should_auto_merge .multiStageDev user_requested strategy = user_requested :=
  ⟨rfl, rfl, rfl, rfl⟩

/-! ## Claim C6: tag classification -/

/-- C6 counterexample: on `" dev-x"` the code strips the tag first and
returns DEV, while the claim's conditions (tested on the tag itself,
which does not start with `"dev-"`) yield INVALID. -/
theorem detect_tag_type_strips_counterexample :
    detect_tag_type " dev-x" = TagType.dev
    ∧ claimTagClassify " dev-x" = TagType.invalid
    ∧ detect_tag_type " dev-x" ≠ claimTagClassify " dev-x" := by
  refine ⟨rfl, rfl, ?_⟩
  intro h
  exact absurd h (by decide)

/-- C6 (amended): `detect_tag_type` is total and agrees everywhere with
the claim's priority classification applied to the whitespace-stripped
tag (INVALID for empty/whitespace-only; then `dev-`, `production-`,
registered canary prefixes, the `v?<int>.<int>.<int>` semver shape;
else INVALID). -/
theorem detect_tag_type_spec (t : String) :
    detect_tag_type t = claimTagClassify (pyStrip t) := by
  unfold detect_tag_type claimTagClassify
  by_cases h1 : pyStrip t = ""
  · have h2 : pyStrip (pyStrip t) = "" := by rw [h1]; rfl
    simp [h1, h2]
  · by_cases h2 : t = ""
    · exact absurd (by rw [h2]; rfl) h1
    · have h3 : ¬ pyStrip (pyStrip t) = "" :=
        fun hh => h1 ((pyStrip_pyStrip_eq_empty_iff t).mp hh)
      simp [h1, h2, h3]

/-! ## Claim C7: stack classification partition -/

/-- A stack in the dev table is never in the canary table. -/
lemma dev_not_canary {s : String}
    (h : (DEV_STACK_MAPPING.map Prod.snd).contains s = true) :
    (CANARY_STACKS.map (fun p => p.2.stack)).contains s = false := by
  simp [DEV_STACK_MAPPING] at h
  rcases h with h | h | h <;> subst h <;> decide

/-- C7: for any stack name that is neither excluded nor ignored,
exactly one of `is_dev`, `is_production`, `is_canary` holds. -/
theorem classify_stack_exactly_one (s : String)
    (hex : EXCLUDED_STACKS.contains s = false)
    (hig : IGNORED_FOLDERS.contains s = false) :
    (((classify_stack s).is_dev && !(classify_stack s).is_production
        && !(classify_stack s).is_canary)
      || (!(classify_stack s).is_dev && (classify_stack s).is_production
        && !(classify_stack s).is_canary)
      || (!(classify_stack s).is_dev && !(classify_stack s).is_production
        && (classify_stack s).is_canary)) = true := by
  unfold classify_stack
  simp only
  cases hdev : (DEV_STACK_MAPPING.map Prod.snd).contains s with
  | true =>
    have hcan := dev_not_canary hdev
    rw [hex, hig, hcan]
    rfl
  | false =>
    cases hcan : (CANARY_STACKS.map (fun p => p.2.stack)).contains s with
    | true => rw [hex, hig]; rfl
    | false => rw [hex, hig]; rfl

/-- C7 witness at the fresh production-stack name `"com-keboola-prod"`. -/
theorem classify_stack_exactly_one_witness :
    EXCLUDED_STACKS.contains "com-keboola-prod" = false
    ∧ IGNORED_FOLDERS.contains "com-keboola-prod" = false
    ∧ (((classify_stack "com-keboola-prod").is_dev
          && !(classify_stack "com-keboola-prod").is_production
          && !(classify_stack "com-keboola-prod").is_canary)
        || (!(classify_stack "com-keboola-prod").is_dev
          && (classify_stack "com-keboola-prod").is_production
          && !(classify_stack "com-keboola-prod").is_canary)
        || (!(classify_stack "com-keboola-prod").is_dev
          && !(classify_stack "com-keboola-prod").is_production
          && (classify_stack "com-keboola-prod").is_canary)) = true :=
  ⟨rfl, rfl, classify_stack_exactly_one "com-keboola-prod" rfl rfl⟩

/-! ## Claim C9: strategy determination -/

/-- The extra-tag loop is the find-first-classifiable rule. -/
lemma extraTagLoop_eq_find (l : List ExtraTag) :
    extraTagLoop l =
      (match l.find? (fun e =>
          detect_tag_type e.value == TagType.dev
          || detect_tag_type e.value == TagType.production
          || detect_tag_type e.value == TagType.semver) with
       | some e => if detect_tag_type e.value = .dev then .dev else .production
       | none => .dev) := by
  induction l with
  | nil => rfl
  | cons e rest ih =>
    cases h : detect_tag_type e.value with
    | dev => simp [extraTagLoop, List.find?, h]
    | production => simp [extraTagLoop, List.find?, h]
    | semver => simp [extraTagLoop, List.find?, h]
    | canary => simpa [extraTagLoop, List.find?, h] using ih
    | invalid => simpa [extraTagLoop, List.find?, h] using ih

/-- C9: `_determine_strategy` implements exactly the claim's rule:
override wins; the primary tag's class maps directly (SEMVER joining
PRODUCTION); otherwise the first extra tag classifying as DEV or as
PRODUCTION/SEMVER decides; if nothing classifies, DEV. -/
theorem determine_strategy_spec (config : EnvironmentConfig) :
    _determine_strategy config = claimDetermineStrategy config := by
  unfold _determine_strategy claimDetermineStrategy
  by_cases hov : config.override_stack ≠ ""
  · simp [hov]
  · simp only [hov, if_false, if_neg hov]
    by_cases hit : config.image_tag ≠ ""
    · simp only [hit, if_true, if_pos hit]
      cases detect_tag_type config.image_tag <;>
        simp [extraTagLoop_eq_find]
    · simp only [hit, if_neg hit]
      have h0 : config.image_tag = "" := by
        by_contra hc
        exact hit hc
      rw [h0]
      have : detect_tag_type "" = TagType.invalid := rfl
      rw [this]
      exact extraTagLoop_eq_find config.extra_tags

/-! ## Claim C10: grouping-strategy insensitivity of `prepare_plan`'s grouping -/

/-- C10: `plan_builder._group_changes_for_prs` never consults the
configured grouping strategy: replacing it by any other value leaves
the produced PR groups unchanged (same stacks, pr_type, base branch). -/
theorem group_changes_for_prs_ignores_grouping_strategy
    (stack_changes : List StackChange) (plan : UpdatePlan)
    (config : EnvironmentConfig) (readShared : SharedReader)
    (g : GroupingStrategy) :
    _group_changes_for_prs stack_changes plan
        { config with grouping_strategy := g } readShared
      = _group_changes_for_prs stack_changes plan config readShared := rfl

/-! ## Claim C8: cloud-provider validation -/

/-- The provider declared by the stack's shared-values document
(`none` when the document is absent or lacks the field). -/
def declaredProvider (stack : String) (readShared : SharedReader) : Option String :=
  match readShared stack with
  | none => none
  | some sv =>
    match sv.find? (fun p => p.1 == "cloudProvider") with
    | none => none
    | some kv => some kv.2

/-- The provider the static dev-stack mapping expects for a stack. -/
def devMappedCloud (stack : String) : Option String :=
  match DEV_STACK_MAPPING.find? (fun p => p.2 == stack) with
  | none => none
  | some p => some p.1

/-- C8: `get_stack_cloud_provider` raises exactly when (a) the document
is absent or lacks `cloudProvider`, (b) the declared provider is
unsupported, or (c) the stack is a mapped dev stack whose mapped
provider differs from the declared one; otherwise it returns the
declared provider unchanged. -/
theorem get_stack_cloud_provider_spec (stack : String) (readShared : SharedReader) :
    ((∃ e, get_stack_cloud_provider stack readShared = .error e) ↔
      (declaredProvider stack readShared = none
        ∨ (∃ c, declaredProvider stack readShared = some c
            ∧ SUPPORTED_CLOUD_PROVIDERS.contains c = false)
        ∨ (∃ c dc, declaredProvider stack readShared = some c
            ∧ devMappedCloud stack = some dc ∧ dc ≠ c)))
    ∧ (∀ p, get_stack_cloud_provider stack readShared = .ok p →
        declaredProvider stack readShared = some p) := by
  unfold get_stack_cloud_provider declaredProvider devMappedCloud
  generalize (DEV_STACK_MAPPING.find? (fun p => p.2 == stack)) = dres
  generalize readShared stack = rres
  rcases rres with _ | sv
  · simp
  · simp only
    generalize (sv.find? (fun p => p.1 == "cloudProvider")) = fres
    rcases fres with _ | kv
    · simp
    · simp only
      rcases dres with _ | dcp
      · by_cases hs : SUPPORTED_CLOUD_PROVIDERS.contains kv.2 = true
        · have hm : kv.2 ∈ SUPPORTED_CLOUD_PROVIDERS := by simpa using hs
          simp [hs, hm]
        · simp only [Bool.not_eq_true] at hs
          have hm : kv.2 ∉ SUPPORTED_CLOUD_PROVIDERS := by simpa using hs
          simp [hs, hm]
      · by_cases hs : SUPPORTED_CLOUD_PROVIDERS.contains kv.2 = true
        · have hm : kv.2 ∈ SUPPORTED_CLOUD_PROVIDERS := by simpa using hs
          by_cases hne : dcp.1 = kv.2
          · simp [hs, hm, hne]
          · simp [hs, hm, hne]
        · simp only [Bool.not_eq_true] at hs
          have hm : kv.2 ∉ SUPPORTED_CLOUD_PROVIDERS := by simpa using hs
          simp [hs, hm]

/-- C8 witness: a valid production stack declaring `aws` passes through
unchanged. -/
theorem get_stack_cloud_provider_spec_witness :
    declaredProvider "com-keboola-prod"
        (fun _ => some [("cloudProvider", "aws")]) = some "aws" :=
  (get_stack_cloud_provider_spec "com-keboola-prod"
    (fun _ => some [("cloudProvider", "aws")])).2 "aws" rfl

/-! ## Grouping lemmas (for C1 and C3) -/

lemma flatMap_congr' {α β : Type} {l : List α} {f g : α → List β}
    (h : ∀ a ∈ l, f a = g a) : l.flatMap f = l.flatMap g := by
  induction l with
  | nil => rfl
  | cons a t ih =>
    rw [List.flatMap_cons, List.flatMap_cons, h a (List.mem_cons_self a t),
      ih (fun b hb => h b (List.mem_cons_of_mem a hb))]

/-- Bucketing a list by a key and concatenating the buckets in any
duplicate-free key order that covers every element is a permutation of
the list. -/
lemma partition_perm {α K : Type} [BEq K] [LawfulBEq K] (key : α → K) :
    ∀ (l : List α) (keys : List K), (∀ x ∈ l, key x ∈ keys) → keys.Nodup →
      List.Perm (keys.flatMap (fun k => l.filter (fun x => key x == k))) l := by
  intro l
  induction l with
  | nil =>
    intro keys _ _
    have hz : (keys.flatMap fun k => List.filter (fun x => key x == k) ([] : List α)) = [] :=
      List.flatMap_eq_nil_iff.mpr (fun _ _ => rfl)
    rw [hz]
  | cons x xs ih =>
    intro keys hcov hnd
    obtain ⟨s, t, rfl⟩ := List.append_of_mem (hcov x (List.mem_cons_self x xs))
    obtain ⟨hs, ht, hdisj⟩ := List.nodup_append.mp hnd
    have hxs : key x ∉ s := fun hmem => hdisj hmem (List.mem_cons_self _ _)
    have hxt : key x ∉ t := (List.nodup_cons.mp ht).1
    have hskip : ∀ k, k ≠ key x →
        List.filter (fun y => key y == k) (x :: xs)
          = List.filter (fun y => key y == k) xs := by
      intro k hk
      exact List.filter_cons_of_neg (by simp [Ne.symm hk])
    have hcenter : List.filter (fun y => key y == key x) (x :: xs)
        = x :: List.filter (fun y => key y == key x) xs :=
      List.filter_cons_of_pos (by simp)
    have hA : s.flatMap (fun k => List.filter (fun y => key y == k) (x :: xs))
        = s.flatMap (fun k => List.filter (fun y => key y == k) xs) :=
      flatMap_congr' (fun k hk => hskip k (fun he => hxs (he ▸ hk)))
    have hC : t.flatMap (fun k => List.filter (fun y => key y == k) (x :: xs))
        = t.flatMap (fun k => List.filter (fun y => key y == k) xs) :=
      flatMap_congr' (fun k hk => hskip k (fun he => hxt (he ▸ hk)))
    have hcov' : ∀ y ∈ xs, key y ∈ s ++ key x :: t :=
      fun y hy => hcov y (List.mem_cons_of_mem x hy)
    have ihp := ih (s ++ key x :: t) hcov' hnd
    rw [List.flatMap_append, List.flatMap_cons] at ihp ⊢
    rw [hA, hC, hcenter]
    exact List.Perm.trans List.perm_middle (List.Perm.cons x ihp)

/-- A successful `get_stack_cloud_provider` result is a supported provider. -/
lemma get_provider_ok_supported {stack : String} {readShared : SharedReader}
    {c : String} (h : get_stack_cloud_provider stack readShared = .ok c) :
    SUPPORTED_CLOUD_PROVIDERS.contains c = true := by
  unfold get_stack_cloud_provider at h
  generalize hd : (DEV_STACK_MAPPING.find? (fun p => p.2 == stack)) = dres at h
  generalize hr : readShared stack = rres at h
  rcases rres with _ | sv
  · cases h
  · simp only [] at h
    generalize hf : (sv.find? (fun p => p.1 == "cloudProvider")) = fres at h
    rcases fres with _ | kv
    · cases h
    · simp only [] at h
      by_cases hsup : SUPPORTED_CLOUD_PROVIDERS.contains kv.2 = true
      · rw [hsup] at h
        simp only [Bool.not_true] at h
        rw [if_neg (by simp)] at h
        rcases dres with _ | dcp
        · simp only [Option.map_none'] at h
          cases h
          exact hsup
        · simp only [Option.map_some'] at h
          by_cases hne : dcp.1 ≠ kv.2
          · rw [if_pos hne] at h
            cases h
          · rw [if_neg hne] at h
            cases h
            exact hsup
      · have hsup' : SUPPORTED_CLOUD_PROVIDERS.contains kv.2 = false := by
          simpa using hsup
        rw [hsup'] at h
        simp only [Bool.not_false] at h
        rw [if_pos trivial] at h
        cases h

/-- Unfolding of a successful annotation loop: the first components
recover the input in order, and every annotation carries a supported
cloud and the stage computed by `stg`. -/
lemma annotateList_spec (stg : StackChange → String) (readShared : SharedReader) :
    ∀ (scs : List StackChange) (ann : List Annotated),
      annotateList stg readShared scs = .ok ann →
      ann.map Prod.fst = scs
      ∧ ∀ x ∈ ann, SUPPORTED_CLOUD_PROVIDERS.contains x.2.1 = true ∧ x.2.2 = stg x.1 := by
  intro scs
  induction scs with
  | nil =>
    intro ann h
    cases h
    exact ⟨rfl, fun x hx => absurd hx (List.not_mem_nil x)⟩
  | cons sc rest ih =>
    intro ann h
    unfold annotateList at h
    rcases hc : get_stack_cloud_provider sc.stack readShared with e | cloud
    · rw [hc] at h
      cases h
    · rw [hc] at h
      rcases hm : annotateList stg readShared rest with e | more
      · rw [hm] at h
        cases h
      · rw [hm] at h
        cases h
        obtain ⟨ih1, ih2⟩ := ih more hm
        constructor
        · simp [ih1]
        · intro x hx
          rcases List.mem_cons.mp hx with hx | hx
          · subst hx
            exact ⟨get_provider_ok_supported hc, rfl⟩
          · exact ih2 x hx

/-- The six `(cloud, stage)` cells in emission order. -/
def cloudStageKeys : List (String × String) :=
  [("aws", "prod"), ("azure", "prod"), ("gcp", "prod"),
   ("aws", "dev"), ("azure", "dev"), ("gcp", "dev")]

lemma flatMap_stackNames_filterMap {α : Type} (cs : List α)
    (f : α → List StackChange) (mk : α → List StackChange → PRGroup)
    (hmk : ∀ c, (mk c (f c)).stackNames = (f c).map (·.stack)) :
    (cs.filterMap (fun c => if (f c).isEmpty then none else some (mk c (f c)))).flatMap
        (·.stackNames)
      = cs.flatMap (fun c => (f c).map (·.stack)) := by
  induction cs with
  | nil => rfl
  | cons c t ih =>
    rw [List.filterMap_cons, List.flatMap_cons]
    by_cases hc : (f c).isEmpty
    · rw [if_pos hc, List.isEmpty_iff.mp hc]
      simpa using ih
    · rw [if_neg hc, List.flatMap_cons, hmk c, ih]

lemma cellChanges_map_stack (ann : List Annotated) (c st : String) :
    (cellChanges ann c st).map (·.stack)
      = (ann.filter (fun x => (x.2.1, x.2.2) == (c, st))).map (fun x => x.1.stack) := by
  unfold cellChanges
  rw [List.map_map]
  rfl

lemma cloudStageGroups_stacks (ann : List Annotated) :
    (cloudStageGroups ann).flatMap (·.stackNames)
      = cloudStageKeys.flatMap
          (fun k => (ann.filter (fun x => (x.2.1, x.2.2) == k)).map (fun x => x.1.stack)) := by
  have estage : ∀ st : String,
      ((["aws", "azure", "gcp"].filterMap (fun cloud =>
        let changes := cellChanges ann cloud st
        if changes.isEmpty then none
        else some ({ stackNames := changes.map (·.stack), changes := changes,
                     base_branch := "main",
                     pr_type := if st == "dev" then PRType.multiStageDev.value
                                else PRType.multiStageProd.value,
                     cloud_provider := some cloud } : PRGroup))).flatMap (·.stackNames))
        = ["aws", "azure", "gcp"].flatMap (fun cloud => (cellChanges ann cloud st).map (·.stack)) := by
    intro st
    exact flatMap_stackNames_filterMap ["aws", "azure", "gcp"]
      (fun cloud => cellChanges ann cloud st)
      (fun cloud changes =>
        { stackNames := changes.map (·.stack), changes := changes,
          base_branch := "main",
          pr_type := if st == "dev" then PRType.multiStageDev.value
                     else PRType.multiStageProd.value,
          cloud_provider := some cloud })
      (fun _ => rfl)
  unfold cloudStageGroups
  rw [List.flatMap_cons, List.flatMap_cons, List.flatMap_nil, List.append_nil,
    List.flatMap_append, estage "prod", estage "dev"]
  simp only [cloudStageKeys, List.flatMap_cons, List.flatMap_nil, List.append_nil,
    List.append_assoc, cellChanges_map_stack]

/-- The cells partition an annotated change list: concatenating all six
cells permutes the annotated list. -/
lemma cloudStageGroups_perm (stg : StackChange → String) (readShared : SharedReader)
    (scs : List StackChange) (ann : List Annotated)
    (hstg : ∀ sc, stg sc = "dev" ∨ stg sc = "prod")
    (h : annotateList stg readShared scs = .ok ann) :
    List.Perm ((cloudStageGroups ann).flatMap (·.stackNames)) (scs.map (·.stack)) := by
  obtain ⟨h1, h2⟩ := annotateList_spec stg readShared scs ann h
  have hcov : ∀ x ∈ ann, (fun x : Annotated => (x.2.1, x.2.2)) x ∈ cloudStageKeys := by
    intro x hx
    obtain ⟨hsup, hstage⟩ := h2 x hx
    have hcl : x.2.1 = "aws" ∨ x.2.1 = "azure" ∨ x.2.1 = "gcp" := by
      simpa [SUPPORTED_CLOUD_PROVIDERS] using hsup
    have hst : x.2.2 = "dev" ∨ x.2.2 = "prod" := hstage ▸ hstg x.1
    rcases hcl with hcl | hcl | hcl <;> rcases hst with hst | hst <;>
      simp [cloudStageKeys, hcl, hst]
  have hperm := partition_perm (fun x : Annotated => (x.2.1, x.2.2)) ann cloudStageKeys
    hcov (by decide)
  have hmap := List.Perm.map (fun x : Annotated => x.1.stack) hperm
  rw [List.map_flatMap] at hmap
  rw [cloudStageGroups_stacks]
  have hfinal : ann.map (fun x : Annotated => x.1.stack) = scs.map (·.stack) := by
    rw [← h1, List.map_map]
    rfl
  rw [hfinal] at hmap
  exact hmap

/-- A single PR group covering all changes trivially partitions them. -/
lemma single_group_perm (scs : List StackChange) (bb : String) (pt : PRType) :
    List.Perm ((_create_single_pr_group scs bb pt).flatMap (·.stackNames))
      (scs.map (·.stack)) := by
  simp [_create_single_pr_group]

/-- Per-stack singleton groups partition the changes. -/
lemma per_stack_perm (scs : List StackChange) :
    List.Perm ((_create_per_stack_groups scs).flatMap (·.stackNames))
      (scs.map (·.stack)) := by
  unfold _create_per_stack_groups
  induction scs with
  | nil => rfl
  | cons sc t ih =>
    rw [List.map_cons, List.flatMap_cons, List.map_cons]
    exact List.Perm.cons sc.stack ih

/-- The stage computed by the handler is always `"dev"` or `"prod"`. -/
lemma stageHandler_cases (sc : StackChange) :
    stageHandler sc = "dev" ∨ stageHandler sc = "prod" := by
  unfold stageHandler
  by_cases hd : (classify_stack sc.stack).is_dev
  · left
    rw [if_pos hd]
  · right
    rw [if_neg hd]

/-- Partition property of `_apply_cloud_multi_stage_grouping`. -/
lemma apply_cloud_multi_stage_perm (ctx : GroupingContext) (groups : List PRGroup)
    (h : _apply_cloud_multi_stage_grouping ctx = .ok groups) :
    List.Perm (groups.flatMap (·.stackNames)) (ctx.stack_changes.map (·.stack)) := by
  unfold _apply_cloud_multi_stage_grouping at h
  by_cases hprod : ctx.plan.strategy ≠ .production
  · rw [if_pos hprod] at h
    cases h
    exact single_group_perm _ _ _
  · rw [if_neg hprod] at h
    rcases hann : annotateHandler ctx with e | ann
    · rw [hann] at h
      cases h
    · rw [hann] at h
      cases h
      exact cloudStageGroups_perm stageHandler ctx.readShared _ ann stageHandler_cases hann

/-! ## Claim C1: grouping partitions the change set -/

/-- C1: for every grouping strategy and non-empty change list, the
stacks of the returned PR groups are exactly the input changed stacks,
each occurring once (the concatenation of all `stacks` fields is a
permutation of the input stack list). -/
theorem group_changes_partition (ctx : GroupingContext) (groups : List PRGroup)
    (_hne : ctx.stack_changes ≠ [])
    (h : group_changes ctx = .ok groups) :
    List.Perm (groups.flatMap (·.stackNames)) (ctx.stack_changes.map (·.stack)) := by
  unfold group_changes at h
  by_cases hov : ctx.plan.override_stack ≠ ""
  · rw [if_pos hov] at h
    cases h
    exact single_group_perm _ _ _
  · rw [if_neg hov] at h
    rcases hgs : ctx.config.grouping_strategy with _ | _ | _ | _
    all_goals rw [hgs] at h
    · -- LEGACY
      unfold _apply_legacy_grouping at h
      by_cases hc : ctx.plan.strategy = .canary
      · rw [if_pos hc] at h
        cases h
        exact single_group_perm _ _ _
      · rw [if_neg hc] at h
        by_cases hms : ctx.config.multi_stage
        · rw [if_pos hms] at h
          exact apply_cloud_multi_stage_perm ctx groups h
        · rw [if_neg hms] at h
          by_cases hd : ctx.plan.strategy = .dev
          · rw [if_pos hd] at h
            cases h
            exact single_group_perm _ _ _
          · rw [if_neg hd] at h
            by_cases hp : ctx.plan.strategy = .production
            · rw [if_pos hp] at h
              by_cases ha : ctx.config.automerge
              · rw [if_pos ha] at h
                cases h
                exact single_group_perm _ _ _
              · rw [if_neg ha] at h
                cases h
                exact per_stack_perm _
            · rw [if_neg hp] at h
              cases h
              exact single_group_perm _ _ _
    · -- SINGLE
      cases h
      exact single_group_perm _ _ _
    · -- STACK
      cases h
      exact per_stack_perm _
    · -- CLOUD_MULTI_STAGE
      exact apply_cloud_multi_stage_perm ctx groups h

/-! ## Claim C3: CLOUD_MULTI_STAGE emission order -/

lemma filterMap_cloud_sublist (cs : List String) (f : String → Option PRGroup)
    (hf : ∀ c g, f c = some g → g.cloud_provider = some c) :
    List.Sublist ((cs.filterMap f).map (·.cloud_provider)) (cs.map some) := by
  induction cs with
  | nil => exact List.Sublist.refl []
  | cons c t ih =>
    rw [List.filterMap_cons, List.map_cons]
    rcases hc : f c with _ | g
    · exact (ih).cons _
    · rw [List.map_cons, hf c g hc]
      exact (ih).cons₂ _

lemma mem_stage_cell_pr_type {ann : List Annotated} {st : String} {g : PRGroup}
    (hg : g ∈ ["aws", "azure", "gcp"].filterMap (fun cloud =>
      let changes := cellChanges ann cloud st
      if changes.isEmpty then none
      else some ({ stackNames := changes.map (·.stack), changes := changes,
                   base_branch := "main",
                   pr_type := if st == "dev" then PRType.multiStageDev.value
                              else PRType.multiStageProd.value,
                   cloud_provider := some cloud } : PRGroup))) :
    g.pr_type = (if st == "dev" then PRType.multiStageDev.value
                 else PRType.multiStageProd.value) := by
  obtain ⟨c, _, hc⟩ := List.mem_filterMap.mp hg
  by_cases he : (cellChanges ann c st).isEmpty
  · rw [if_pos he] at hc
    cases hc
  · rw [if_neg he] at hc
    cases hc
    rfl

lemma stage_cell_cloud {ann : List Annotated} {st c : String} {g : PRGroup}
    (hc : (fun cloud =>
      let changes := cellChanges ann cloud st
      if changes.isEmpty then none
      else some ({ stackNames := changes.map (·.stack), changes := changes,
                   base_branch := "main",
                   pr_type := if st == "dev" then PRType.multiStageDev.value
                              else PRType.multiStageProd.value,
                   cloud_provider := some cloud } : PRGroup)) c = some g) :
    g.cloud_provider = some c := by
  simp only at hc
  by_cases he : (cellChanges ann c st).isEmpty
  · rw [if_pos he] at hc
    cases hc
  · rw [if_neg he] at hc
    cases hc
    rfl

/-- C3: under CLOUD_MULTI_STAGE grouping with a PRODUCTION strategy
context, the returned group list is all `multi_stage_prod` groups
followed by all `multi_stage_dev` groups, and within each stage the
cloud providers appear in the fixed order aws, azure, gcp. -/
theorem cloud_multi_stage_order (ctx : GroupingContext) (groups : List PRGroup)
    (hstrat : ctx.config.grouping_strategy = .cloudMultiStage)
    (hov : ctx.plan.override_stack = "")
    (hprod : ctx.plan.strategy = .production)
    (h : group_changes ctx = .ok groups) :
    ∃ prodGroups devGroups,
      groups = prodGroups ++ devGroups
      ∧ (∀ g ∈ prodGroups, g.pr_type = "multi_stage_prod")
      ∧ (∀ g ∈ devGroups, g.pr_type = "multi_stage_dev")
      ∧ List.Sublist (prodGroups.map (·.cloud_provider))
          [some "aws", some "azure", some "gcp"]
      ∧ List.Sublist (devGroups.map (·.cloud_provider))
          [some "aws", some "azure", some "gcp"] := by
  unfold group_changes at h
  rw [if_neg (by simp [hov]), hstrat] at h
  unfold _apply_cloud_multi_stage_grouping at h
  rw [if_neg (by simp [hprod])] at h
  rcases hann : annotateHandler ctx with e | ann
  · rw [hann] at h
    cases h
  · rw [hann] at h
    cases h
    unfold cloudStageGroups
    rw [List.flatMap_cons, List.flatMap_cons, List.flatMap_nil, List.append_nil]
    refine ⟨_, _, rfl, ?_, ?_, ?_, ?_⟩
    · intro g hg
      have := @mem_stage_cell_pr_type _ "prod" _ hg
      simpa using this
    · intro g hg
      have := @mem_stage_cell_pr_type _ "dev" _ hg
      simpa using this
    · exact filterMap_cloud_sublist _ _ (fun c g hc => stage_cell_cloud hc)
    · exact filterMap_cloud_sublist _ _ (fun c g hc => stage_cell_cloud hc)

/-! ### Concrete grouping context used by the C1 and C3 witnesses -/

def fcW : FileChange :=
  { file_path := "p", old_content := .map [], new_content := .map [],
    change_description := "" }

def scProd : StackChange :=
  { stack := "com-keboola-prod-aws", file_change := fcW, changes := [] }

def scDev : StackChange :=
  { stack := "dev-keboola-gcp-us-central1", file_change := fcW, changes := [] }

def readSharedW : SharedReader := fun s =>
  if s == "dev-keboola-gcp-us-central1" then some [("cloudProvider", "gcp")]
  else some [("cloudProvider", "aws")]

def ctxW : GroupingContext :=
  { config := { helm_chart := "svc", image_tag := "production-1.2.3",
                grouping_strategy := .cloudMultiStage }
    plan := { strategy := .production, helm_chart := "svc",
              image_tag := "production-1.2.3" }
    stack_changes := [scProd, scDev]
    readShared := readSharedW }

/-- C1 witness: on a concrete two-stack CLOUD_MULTI_STAGE run the
grouping succeeds and partitions the two changed stacks. -/
theorem group_changes_partition_witness :
    ctxW.stack_changes ≠ []
    ∧ ∃ groups, group_changes ctxW = .ok groups
        ∧ List.Perm (groups.flatMap (·.stackNames)) (ctxW.stack_changes.map (·.stack)) :=
  ⟨List.cons_ne_nil scProd [scDev], _, rfl,
    group_changes_partition ctxW _ (List.cons_ne_nil scProd [scDev]) rfl⟩

/-- C3 witness: the concrete run emits its prod group before its dev
group with clouds in the fixed order. -/
theorem cloud_multi_stage_order_witness :
    ∃ groups prodGroups devGroups,
      group_changes ctxW = .ok groups
      ∧ groups = prodGroups ++ devGroups
      ∧ (∀ g ∈ prodGroups, g.pr_type = "multi_stage_prod")
      ∧ (∀ g ∈ devGroups, g.pr_type = "multi_stage_dev")
      ∧ List.Sublist (prodGroups.map (·.cloud_provider))
          [some "aws", some "azure", some "gcp"]
      ∧ List.Sublist (devGroups.map (·.cloud_provider))
          [some "aws", some "azure", some "gcp"] := by
  obtain ⟨p, d, h1, h2, h3, h4, h5⟩ := cloud_multi_stage_order ctxW _ rfl rfl rfl rfl
  exact ⟨_, p, d, rfl, h1, h2, h3, h4, h5⟩

/-! ## Claim C4: all-up-to-date run -/

/-- If every target stack's manifest is readable and computes an empty
change list, `_calculate_all_changes` returns the empty change set. -/
lemma calc_all_changes_nil (plan : UpdatePlan) (world : World)
    (h : ∀ stack ∈ plan.target_stacks,
      ∃ doc, world.readTag (stack ++ "/" ++ plan.helm_chart ++ "/tag.yaml") = some doc
        ∧ calculate_tag_changes doc plan.image_tag plan.extra_tags
            ((plan.metadata.find? (fun p => p.1 == "commit_sha")).map Prod.snd) = .ok []) :
    _calculate_all_changes plan world = .ok [] := by
  unfold _calculate_all_changes
  have key : ∀ ts : List String, (∀ stack ∈ ts,
      ∃ doc, world.readTag (stack ++ "/" ++ plan.helm_chart ++ "/tag.yaml") = some doc
        ∧ calculate_tag_changes doc plan.image_tag plan.extra_tags
            ((plan.metadata.find? (fun p => p.1 == "commit_sha")).map Prod.snd) = .ok []) →
      _calculate_all_changes.go plan world ts = .ok [] := by
    intro ts
    induction ts with
    | nil =>
      intro _
      rfl
    | cons s t ih =>
      intro hh
      obtain ⟨doc, hr, hc⟩ := hh s (List.mem_cons_self s t)
      unfold _calculate_all_changes.go
      simp only []
      rw [hr]
      simp only []
      rw [hc]
      exact ih (fun s' hs' => hh s' (List.mem_cons_of_mem s hs'))
  exact key plan.target_stacks h

/-- C4 (amended): when the target-stack set is non-empty and every
target stack's manifest is readable but already fully up to date (the
change calculator returns the empty list everywhere), `prepare_plan`
does not return a plan: it raises the "noop change" error, as §4.6
step 5 of the specification prescribes. -/
theorem prepare_plan_noop_raises (config : EnvironmentConfig) (world : World)
    (h1 : planTargets config world ≠ [])
    (h2 : ∀ stack ∈ planTargets config world,
      ∃ doc, world.readTag (stack ++ "/" ++ config.helm_chart ++ "/tag.yaml") = some doc
        ∧ calculate_tag_changes doc config.image_tag config.extra_tags
            ((config.metadata.find? (fun p => p.1 == "commit_sha")).map Prod.snd) = .ok []) :
    ∃ msg, prepare_plan config world = .error msg := by
  unfold prepare_plan
  simp only []
  have hne : (basePlan config world).target_stacks.isEmpty = false := by
    have : (basePlan config world).target_stacks = planTargets config world := rfl
    rw [this]
    rcases hcase : planTargets config world with _ | ⟨a, b⟩
    · exact absurd hcase h1
    · rfl
  rw [hne]
  simp only [Bool.false_eq_true, if_false]
  have hcalc : _calculate_all_changes (basePlan config world) world = .ok [] :=
    calc_all_changes_nil (basePlan config world) world h2
  rw [hcalc]
  exact ⟨_, rfl⟩

/-! ### Concrete all-up-to-date run for the C4 counterexample and witness -/

def cfgC4 : EnvironmentConfig := { helm_chart := "svc", image_tag := "dev-x" }

def worldC4 : World :=
  { dirEntries := ["dev-keboola-gcp-us-central1"]
    isDirF := fun _ => true
    readTag := fun p =>
      if p == "dev-keboola-gcp-us-central1/svc/tag.yaml" then
        some (.map [("image", .map [("tag", .str "dev-x")])])
      else none
    readShared := fun _ => none
    suffix := "ab12" }

/-- C4 counterexample: on a run whose single dev target already carries
the requested tag, `prepare_plan` raises instead of returning a
no-change plan, so the claim's "has_changes() == False … the run does
not fail" is false on the code. -/
theorem prepare_plan_noop_counterexample :
    prepare_plan cfgC4 worldC4
      = .error ("\nError: tag.yaml for chart svc does not exist in any stack"
          ++ " or all tags are already up to date (noop change).")
    ∧ ∀ plan, prepare_plan cfgC4 worldC4 ≠ .ok plan := by
  refine ⟨rfl, ?_⟩
  intro plan h
  rw [show prepare_plan cfgC4 worldC4
      = .error ("\nError: tag.yaml for chart svc does not exist in any stack"
          ++ " or all tags are already up to date (noop change).") from rfl] at h
  cases h

/-- C4 witness: the amended theorem applied to the concrete
all-up-to-date run. -/
theorem prepare_plan_noop_raises_witness :
    planTargets cfgC4 worldC4 ≠ []
    ∧ (∃ msg, prepare_plan cfgC4 worldC4 = .error msg) := by
  have h1 : planTargets cfgC4 worldC4 ≠ [] := by
    rw [show planTargets cfgC4 worldC4 = ["dev-keboola-gcp-us-central1"] from rfl]
    exact List.cons_ne_nil _ _
  have h2 : ∀ stack ∈ planTargets cfgC4 worldC4,
      ∃ doc, worldC4.readTag (stack ++ "/" ++ cfgC4.helm_chart ++ "/tag.yaml") = some doc
        ∧ calculate_tag_changes doc cfgC4.image_tag cfgC4.extra_tags
            ((cfgC4.metadata.find? (fun p => p.1 == "commit_sha")).map Prod.snd) = .ok [] := by
    intro stack hs
    rw [show planTargets cfgC4 worldC4 = ["dev-keboola-gcp-us-central1"] from rfl] at hs
    rcases List.mem_cons.mp hs with hs | hs
    · subst hs
      exact ⟨Val.map [("image", Val.map [("tag", Val.str "dev-x")])], rfl, rfl⟩
    · exact absurd hs (List.not_mem_nil stack)
  exact ⟨h1, prepare_plan_noop_raises cfgC4 worldC4 h1 h2⟩

/-! ## Claim C5: idempotence of the change calculation

Dotted paths, their independence (neither equal nor nested), and the
behaviour of `setPath`/`pyGet` under updates at independent paths. -/

/-- Is the first path-segment list a leading segment of the second? -/
def listPfx : List String → List String → Bool
  | [], _ => true
  | _ :: _, [] => false
  | a :: as, b :: bs => a == b && listPfx as bs

/-- Two dotted paths are independent when neither is a segment-wise
leading segment of the other (so neither equal nor nested). -/
def indep (p q : List String) : Bool := !listPfx p q && !listPfx q p

/-- The segment list of a dotted path (`path.split(".")`). -/
def partsOf (path : String) : List String := splitOnCh '.' path

lemma indep_comm (p q : List String) : indep p q = indep q p := by
  unfold indep
  rw [Bool.and_comm]

lemma listPfx_refl (p : List String) : listPfx p p = true := by
  induction p with
  | nil => rfl
  | cons a t ih => simp [listPfx, ih]

lemma findD_setKey_self (es : List (String × Val)) (k : String) (v d : Val) :
    findD (setKey es k v) k d = v := by
  induction es with
  | nil => simp [setKey, findD]
  | cons hd rest ih =>
    obtain ⟨k', v'⟩ := hd
    by_cases h : k' == k
    · simp [setKey, h, findD]
    · simp [setKey, h, findD, ih]

lemma findD_setKey_ne (es : List (String × Val)) (k k' : String) (v d : Val)
    (h : k' ≠ k) : findD (setKey es k v) k' d = findD es k' d := by
  have hne : ¬ (k = k') := fun he => h he.symm
  induction es with
  | nil => simp [setKey, findD, hne]
  | cons hd rest ih =>
    obtain ⟨k0, v0⟩ := hd
    by_cases h0 : (k0 == k) = true
    · have hk0 : k0 = k := by simpa using h0
      subst hk0
      simp [setKey, findD, hne]
    · simp [setKey, h0, findD, ih]

/-- A successful `setPath` writes the value at the path. -/
lemma setPath_pyGet : ∀ (p : List String) (v v' : Val) (val : String),
    setPath v p val = .ok v' → pyGet v' p = some (.str val) := by
  intro p
  induction p with
  | nil =>
    intro v v' val h
    cases h
  | cons k rest ih =>
    intro v v' val h
    rcases rest with _ | ⟨r0, rs⟩
    · -- p = [k]
      rcases v with s | _ | es
      · cases h
      · cases h
      · cases h
        show pyGet (findD (setKey es k (.str val)) k (.map [])) [] = _
        rw [findD_setKey_self]
        rfl
    · -- p = k :: r0 :: rs
      rcases v with s | _ | es
      · cases h
      · cases h
      · unfold setPath at h
        simp only [] at h
        rcases hchild : findD es k (.map []) with s' | _ | es2 <;> rw [hchild] at h
        · cases h
        · cases h
        · simp only [] at h
          rcases hrec : setPath (.map es2) (r0 :: rs) val with e | c' <;> rw [hrec] at h
          · cases h
          · cases h
            show pyGet (findD (setKey es k c') k (.map [])) (r0 :: rs) = _
            rw [findD_setKey_self]
            exact ih _ c' val hrec

/-- A successful `setPath` at `p` preserves every string leaf reachable
at a path independent of `p`. -/
lemma setPath_preserves_str : ∀ (p : List String) (v v' : Val) (val : String)
    (q : List String) (s : String),
    setPath v p val = .ok v' → indep p q = true →
    pyGet v q = some (.str s) → pyGet v' q = some (.str s) := by
  intro p
  induction p with
  | nil =>
    intro v v' val q s h _ _
    cases h
  | cons k rest ih =>
    intro v v' val q s h hind hq
    rcases rest with _ | ⟨r0, rs⟩
    all_goals rcases v with sv | _ | es
    · cases h
    · cases h
    · -- p = [k], v = map es
      cases h
      rcases q with _ | ⟨q0, qr⟩
      · exact absurd (Option.some.inj hq) (fun he => Val.noConfusion he)
      · by_cases hk : q0 = k
        · exfalso
          subst hk
          simp [indep, listPfx] at hind
        · show pyGet (findD (setKey es k (.str val)) q0 (.map [])) qr = _
          rw [findD_setKey_ne _ _ _ _ _ hk]
          exact hq
    · cases h
    · cases h
    · -- p = k :: r0 :: rs, v = map es
      unfold setPath at h
      simp only [] at h
      rcases hchild : findD es k (.map []) with s' | _ | es2 <;> rw [hchild] at h
      · cases h
      · cases h
      · simp only [] at h
        rcases hrec : setPath (.map es2) (r0 :: rs) val with e | c' <;> rw [hrec] at h
        · cases h
        · cases h
          rcases q with _ | ⟨q0, qr⟩
          · exact absurd (Option.some.inj hq) (fun he => Val.noConfusion he)
          · by_cases hk : q0 = k
            · subst hk
              have hind' : indep (r0 :: rs) qr = true := by
                simp [indep, listPfx] at hind ⊢
                exact hind
              have hq' : pyGet (findD es q0 (.map [])) qr = some (.str s) := hq
              rw [hchild] at hq'
              show pyGet (findD (setKey es q0 c') q0 (.map [])) qr = _
              rw [findD_setKey_self]
              exact ih (.map es2) c' val qr s hrec hind' hq'
            · show pyGet (findD (setKey es k c') q0 (.map [])) qr = _
              rw [findD_setKey_ne _ _ _ _ _ hk]
              exact hq

/-- Applying a change list whose paths are all independent of `q`
preserves a string leaf at `q`. -/
lemma apply_preserves : ∀ (cs : List TagChange) (v v' : Val) (q : List String) (s : String),
    _apply_changes_to_data v cs = .ok v' →
    (∀ c ∈ cs, indep (partsOf c.path) q = true) →
    pyGet v q = some (.str s) → pyGet v' q = some (.str s) := by
  intro cs
  induction cs with
  | nil =>
    intro v v' q s h _ hq
    cases h
    exact hq
  | cons c0 rest ih =>
    intro v v' q s h hind hq
    unfold _apply_changes_to_data at h
    rcases hset : setPath v (splitOnCh '.' c0.path) c0.new_value with e | v1 <;>
      rw [hset] at h
    · cases h
    · have hstep := setPath_preserves_str (splitOnCh '.' c0.path) v v1 c0.new_value q s
        hset (hind c0 (List.mem_cons_self c0 rest)) hq
      exact ih v1 v' q s h (fun c hc => hind c (List.mem_cons_of_mem c0 hc)) hstep

/-- After a successful application of a pairwise-independent change
list, every change's path holds its written value. -/
lemma apply_writes : ∀ (cs : List TagChange) (v v' : Val),
    _apply_changes_to_data v cs = .ok v' →
    cs.Pairwise (fun c c' => indep (partsOf c.path) (partsOf c'.path) = true) →
    ∀ c ∈ cs, pyGet v' (partsOf c.path) = some (.str c.new_value) := by
  intro cs
  induction cs with
  | nil =>
    intro v v' _ _ c hc
    exact absurd hc (List.not_mem_nil c)
  | cons c0 rest ih =>
    intro v v' h hpw c hc
    unfold _apply_changes_to_data at h
    rcases hset : setPath v (splitOnCh '.' c0.path) c0.new_value with e | v1 <;>
      rw [hset] at h
    · cases h
    · obtain ⟨hhead, htail⟩ := List.pairwise_cons.mp hpw
      rcases List.mem_cons.mp hc with hc | hc
      · subst hc
        exact apply_preserves rest v1 v' (partsOf c.path) c.new_value h
          (fun c' hc' => by rw [indep_comm]; exact hhead c' hc')
          (setPath_pyGet (splitOnCh '.' c.path) v v1 c.new_value hset)
      · exact ih v1 v' h htail c hc

lemma pyEqStr_iff (pv : Val) (s : String) : pyEqStr pv s = true ↔ pv = .str s := by
  rcases pv with s' | _ | es <;> simp [pyEqStr]

/-- A `findD` result that differs from the supplied default is a real
binding, hence independent of the default. -/
lemma findD_str_any_default : ∀ (es : List (String × Val)) (k s : String) (d : Val),
    findD es k d = .str s → Val.str s ≠ d → ∀ d' : Val, findD es k d' = .str s := by
  intro es
  induction es with
  | nil =>
    intro k s d h hne _
    exact absurd h.symm hne
  | cons hd0 rest ih =>
    intro k s d h hne d'
    obtain ⟨k0, v0⟩ := hd0
    by_cases h0 : (k0 == k) = true
    · simp only [findD, h0, if_true] at h ⊢
      exact h
    · simp only [findD, h0, if_false] at h ⊢
      exact ih k s d h hne d'

/-- A real string leaf two levels down is seen identically by the
raising `.get(...).get(...)` chain, regardless of its default. -/
lemma pyGet_str_pyGet2 {v : Val} {k1 k2 s : String} (d : Val)
    (h : pyGet v [k1, k2] = some (.str s)) :
    pyGet2 v k1 k2 d = .ok (.str s) := by
  rcases v with s' | _ | es
  · cases h
  · cases h
  · have h' : pyGet (findD es k1 (.map [])) [k2] = some (.str s) := h
    rcases hchild : findD es k1 (.map []) with s' | _ | es2 <;> rw [hchild] at h'
    · cases h'
    · cases h'
    · have h2 : findD es2 k2 (.map []) = .str s := Option.some.inj h'
      have hd : findD es2 k2 d = .str s :=
        findD_str_any_default es2 k2 s (.map []) h2 (fun he => Val.noConfusion he) d
      unfold pyGet2
      simp only []
      rw [hchild]
      simp only []
      rw [hd]

/-- Conversely, when the raising chain returns a string different from
its default, that string is a real leaf. -/
lemma pyGet2_str_real {v : Val} {k1 k2 s : String} {d : Val}
    (h : pyGet2 v k1 k2 d = .ok (.str s)) (hne : Val.str s ≠ d) :
    pyGet v [k1, k2] = some (.str s) := by
  rcases v with s' | _ | es
  · cases h
  · cases h
  · unfold pyGet2 at h
    simp only [] at h
    rcases hchild : findD es k1 (.map []) with s' | _ | es2 <;> rw [hchild] at h
    · cases h
    · cases h
    · have h2 : findD es2 k2 d = .str s := Except.ok.inj h
      have hd : findD es2 k2 (.map []) = .str s :=
        findD_str_any_default es2 k2 s d h2 hne (.map [])
      show pyGet (findD es k1 (.map [])) [k2] = some (.str s)
      rw [hchild]
      show some (findD es2 k2 (.map [])) = _
      rw [hd]

/-- The path the commit-SHA block may write (empty unless a non-blank
SHA is supplied). -/
def shaPathList (commit_sha : Option String) : List (List String) :=
  match commit_sha with
  | some s => if s = "" then [] else [["image", "commit_sha"]]
  | none => []

/-- The paths `calculate_tag_changes` may write: `image.tag` when the
main tag guard holds, the extra-tag paths in order, and
`image.commit_sha` when a commit SHA is given. -/
def writtenPaths (image_tag : String) (extras : List ExtraTag)
    (commit_sha : Option String) : List (List String) :=
  (if image_tag ≠ "" && pyStrip image_tag ≠ "" then [["image", "tag"]] else [])
  ++ (extras.map (fun e => partsOf e.path) ++ shaPathList commit_sha)

lemma resolveExtra_some {v : Val} {p s : String} (h : resolveExtra v p = some s) :
    pyGet v (splitOnCh '.' p) = some (.str s) := by
  unfold resolveExtra at h
  rcases hg : pyGet v (splitOnCh '.' p) with _ | w <;> rw [hg] at h
  · cases h
  · rcases w with s' | _ | es
    · cases h
      rfl
    · cases h
    · cases h

lemma calc_extra_nil_of_pyGet {v : Val} {e : ExtraTag}
    (h : pyGet v (splitOnCh '.' e.path) = some (.str e.value)) :
    calc_extra v e = [] := by
  unfold calc_extra resolveExtra
  rw [h]
  simp

lemma calc_extra_nil_real {v : Val} {e : ExtraTag} (h : calc_extra v e = []) :
    pyGet v (splitOnCh '.' e.path) = some (.str e.value) := by
  unfold calc_extra at h
  by_cases hcond : (resolveExtra v e.path == some e.value) = true
  · exact resolveExtra_some (by simpa using hcond)
  · rw [if_neg hcond] at h
    exact absurd h (List.cons_ne_nil _ _)

lemma calc_extra_mem {v : Val} {e : ExtraTag} {c : TagChange}
    (hc : c ∈ calc_extra v e) :
    c.path = e.path ∧ c.new_value = e.value ∧ calc_extra v e = [c] := by
  unfold calc_extra at hc ⊢
  by_cases hcond : (resolveExtra v e.path == some e.value) = true
  · rw [if_pos hcond] at hc
    exact absurd hc (List.not_mem_nil c)
  · rw [if_neg hcond] at hc ⊢
    rcases List.mem_cons.mp hc with hc | hc
    · subst hc
      exact ⟨rfl, rfl, rfl⟩
    · exact absurd hc (List.not_mem_nil c)

lemma calc_img_nil_of_pyGet {v : Val} {tag : String}
    (hg : (tag ≠ "" && pyStrip tag ≠ "") = true)
    (h : pyGet v ["image", "tag"] = some (.str tag)) :
    calc_img v tag = .ok [] := by
  unfold calc_img
  rw [if_pos hg, pyGet_str_pyGet2 (.str "") h]
  simp [pyEqStr]

lemma calc_img_nil_real {v : Val} {tag : String}
    (hg : (tag ≠ "" && pyStrip tag ≠ "") = true)
    (h : calc_img v tag = .ok []) :
    pyGet v ["image", "tag"] = some (.str tag) := by
  unfold calc_img at h
  rw [if_pos hg] at h
  rcases hpv : pyGet2 v "image" "tag" (.str "") with e | pv <;> rw [hpv] at h
  · cases h
  · simp only [] at h
    by_cases heq : pyEqStr pv tag = true
    · have hpv' : pv = .str tag := (pyEqStr_iff pv tag).mp heq
      subst hpv'
      have htagne : tag ≠ "" := by
        simp only [Bool.and_eq_true, decide_eq_true_eq] at hg
        exact hg.1
      exact pyGet2_str_real hpv (fun he => htagne (Val.str.inj he))
    · rw [if_neg heq] at h
      exact absurd (Except.ok.inj h) (List.cons_ne_nil _ _)

lemma calc_img_mem {v : Val} {tag : String} {a : List TagChange} {c : TagChange}
    (ha : calc_img v tag = .ok a) (hc : c ∈ a) :
    c.path = "image.tag" ∧ c.new_value = tag
      ∧ (tag ≠ "" && pyStrip tag ≠ "") = true := by
  unfold calc_img at ha
  by_cases hg : (tag ≠ "" && pyStrip tag ≠ "") = true
  · rw [if_pos hg] at ha
    rcases hpv : pyGet2 v "image" "tag" (.str "") with e | pv <;> rw [hpv] at ha
    · cases ha
    · simp only [] at ha
      by_cases heq : pyEqStr pv tag = true
      · rw [if_pos heq] at ha
        cases ha
        exact absurd hc (List.not_mem_nil c)
      · rw [if_neg heq] at ha
        cases ha
        rcases List.mem_cons.mp hc with hc | hc
        · subst hc
          exact ⟨rfl, rfl, hg⟩
        · exact absurd hc (List.not_mem_nil c)
  · rw [if_neg hg] at ha
    cases ha
    exact absurd hc (List.not_mem_nil c)

lemma calc_sha_nil_of_pyGet {v : Val} {s : String}
    (h : pyGet v ["image", "commit_sha"] = some (.str s)) :
    calc_sha v (some s) = .ok [] := by
  unfold calc_sha
  simp only []
  by_cases hs : s = ""
  · rw [if_pos hs]
  · rw [if_neg hs, pyGet_str_pyGet2 .nul h]
    simp [pyEqStr]

lemma calc_sha_nil_real {v : Val} {s : String} (hs : s ≠ "")
    (h : calc_sha v (some s) = .ok []) :
    pyGet v ["image", "commit_sha"] = some (.str s) := by
  unfold calc_sha at h
  simp only [] at h
  rw [if_neg hs] at h
  rcases hpv : pyGet2 v "image" "commit_sha" .nul with e | pv <;> rw [hpv] at h
  · cases h
  · simp only [] at h
    by_cases heq : pyEqStr pv s = true
    · have hpv' : pv = .str s := (pyEqStr_iff pv s).mp heq
      subst hpv'
      exact pyGet2_str_real hpv (fun he => Val.noConfusion he)
    · rw [if_neg heq] at h
      exact absurd (Except.ok.inj h) (List.cons_ne_nil _ _)

lemma calc_sha_mem {v : Val} {sha : Option String} {csha : List TagChange}
    {c : TagChange} (hsha : calc_sha v sha = .ok csha) (hc : c ∈ csha) :
    c.path = "image.commit_sha" ∧ ∃ s, sha = some s ∧ ¬ s = "" ∧ c.new_value = s := by
  unfold calc_sha at hsha
  rcases sha with _ | s
  · cases hsha
    exact absurd hc (List.not_mem_nil c)
  · simp only [] at hsha
    by_cases hs : s = ""
    · rw [if_pos hs] at hsha
      cases hsha
      exact absurd hc (List.not_mem_nil c)
    · rw [if_neg hs] at hsha
      rcases hpv : pyGet2 v "image" "commit_sha" .nul with e | pv <;> rw [hpv] at hsha
      · cases hsha
      · simp only [] at hsha
        by_cases heq : pyEqStr pv s = true
        · rw [if_pos heq] at hsha
          cases hsha
          exact absurd hc (List.not_mem_nil c)
        · rw [if_neg heq] at hsha
          cases hsha
          rcases List.mem_cons.mp hc with hc | hc
          · subst hc
            exact ⟨rfl, s, rfl, hs, rfl⟩
          · exact absurd hc (List.not_mem_nil c)

lemma shaPathList_mem {sha : Option String} {s : String}
    (hs_eq : sha = some s) (hs_ne : ¬ s = "") :
    ["image", "commit_sha"] ∈ shaPathList sha := by
  rw [hs_eq]
  unfold shaPathList
  simp only []
  rw [if_neg hs_ne]
  exact List.mem_singleton.mpr rfl

lemma calc_img_paths_sublist {v : Val} {tag : String} {a : List TagChange}
    (ha : calc_img v tag = .ok a) :
    List.Sublist (a.map (fun c => partsOf c.path))
      (if tag ≠ "" && pyStrip tag ≠ "" then [["image", "tag"]] else []) := by
  unfold calc_img at ha
  by_cases hg : (tag ≠ "" && pyStrip tag ≠ "") = true
  · rw [if_pos hg] at ha
    rw [if_pos hg]
    rcases hpv : pyGet2 v "image" "tag" (.str "") with e | pv <;> rw [hpv] at ha
    · cases ha
    · simp only [] at ha
      by_cases heq : pyEqStr pv tag = true
      · rw [if_pos heq] at ha
        cases ha
        exact List.nil_sublist _
      · rw [if_neg heq] at ha
        cases ha
        simp only [List.map_cons, List.map_nil]
        rw [show partsOf "image.tag" = ["image", "tag"] from rfl]
  · rw [if_neg hg] at ha
    rw [if_neg hg]
    cases ha
    exact List.nil_sublist _

lemma extra_paths_sublist (v : Val) (extras : List ExtraTag) :
    List.Sublist ((extras.flatMap (calc_extra v)).map (fun c => partsOf c.path))
      (extras.map (fun e => partsOf e.path)) := by
  induction extras with
  | nil => exact List.nil_sublist _
  | cons e t ih =>
    rw [List.flatMap_cons, List.map_append, List.map_cons]
    rcases hce : calc_extra v e with _ | ⟨c0, rest⟩
    · simp only [List.map_nil, List.nil_append]
      exact ih.cons _
    · have hc0mem : c0 ∈ calc_extra v e := by
        rw [hce]
        exact List.mem_cons_self _ _
      obtain ⟨hpath, _, hsingle⟩ := calc_extra_mem hc0mem
      rw [hce] at hsingle
      cases hsingle
      simp only [List.map_cons, List.map_nil]
      rw [show partsOf c0.path = partsOf e.path from by rw [hpath]]
      exact ih.cons₂ _

lemma calc_sha_paths_sublist {v : Val} {sha : Option String} {csha : List TagChange}
    (hsha : calc_sha v sha = .ok csha) :
    List.Sublist (csha.map (fun c => partsOf c.path)) (shaPathList sha) := by
  unfold calc_sha at hsha
  unfold shaPathList
  rcases sha with _ | s
  · cases hsha
    exact List.nil_sublist _
  · simp only [] at hsha ⊢
    by_cases hs : s = ""
    · rw [if_pos hs] at hsha
      rw [if_pos hs]
      cases hsha
      exact List.nil_sublist _
    · rw [if_neg hs] at hsha
      rw [if_neg hs]
      rcases hpv : pyGet2 v "image" "commit_sha" .nul with e | pv <;> rw [hpv] at hsha
      · cases hsha
      · simp only [] at hsha
        by_cases heq : pyEqStr pv s = true
        · rw [if_pos heq] at hsha
          cases hsha
          exact List.nil_sublist _
        · rw [if_neg heq] at hsha
          cases hsha
          simp only [List.map_cons, List.map_nil]
          rw [show partsOf "image.commit_sha" = ["image", "commit_sha"] from rfl]

/-- Either the `image.tag` block emits nothing and the current value is
a real leaf equal to the tag, or it emits a change at `image.tag`. -/
lemma calc_img_emit_or {v : Val} {tag : String} {a : List TagChange}
    (ha : calc_img v tag = .ok a)
    (hg : (tag ≠ "" && pyStrip tag ≠ "") = true) :
    (a = [] ∧ pyGet v ["image", "tag"] = some (.str tag))
    ∨ (∃ c ∈ a, c.path = "image.tag" ∧ c.new_value = tag) := by
  unfold calc_img at ha
  rw [if_pos hg] at ha
  rcases hpv : pyGet2 v "image" "tag" (.str "") with e | pv <;> rw [hpv] at ha
  · cases ha
  · simp only [] at ha
    by_cases heq : pyEqStr pv tag = true
    · rw [if_pos heq] at ha
      cases ha
      left
      have hpv' := (pyEqStr_iff pv tag).mp heq
      subst hpv'
      have htagne : tag ≠ "" := by
        simp only [Bool.and_eq_true, decide_eq_true_eq] at hg
        exact hg.1
      exact ⟨rfl, pyGet2_str_real hpv (fun he => htagne (Val.str.inj he))⟩
    · rw [if_neg heq] at ha
      cases ha
      right
      exact ⟨_, List.mem_cons_self _ _, rfl, rfl⟩

/-- Either the commit-SHA block emits nothing and the current value is
a real leaf equal to the SHA, or it emits a change at `image.commit_sha`. -/
lemma calc_sha_emit_or {v : Val} {s : String} {csha : List TagChange}
    (hsha : calc_sha v (some s) = .ok csha) (hs : ¬ s = "") :
    (csha = [] ∧ pyGet v ["image", "commit_sha"] = some (.str s))
    ∨ (∃ c ∈ csha, c.path = "image.commit_sha" ∧ c.new_value = s) := by
  unfold calc_sha at hsha
  simp only [] at hsha
  rw [if_neg hs] at hsha
  rcases hpv : pyGet2 v "image" "commit_sha" .nul with e | pv <;> rw [hpv] at hsha
  · cases hsha
  · simp only [] at hsha
    by_cases heq : pyEqStr pv s = true
    · rw [if_pos heq] at hsha
      cases hsha
      left
      have hpv' := (pyEqStr_iff pv s).mp heq
      subst hpv'
      exact ⟨rfl, pyGet2_str_real hpv (fun he => Val.noConfusion he)⟩
    · rw [if_neg heq] at hsha
      cases hsha
      right
      exact ⟨_, List.mem_cons_self _ _, rfl, rfl⟩

/-- Either an extra tag emits nothing and its current value is a real
leaf equal to the requested value, or it emits a change at its path. -/
lemma calc_extra_emit_or (v : Val) (e : ExtraTag) :
    (calc_extra v e = [] ∧ pyGet v (splitOnCh '.' e.path) = some (.str e.value))
    ∨ (∃ c ∈ calc_extra v e, c.path = e.path ∧ c.new_value = e.value) := by
  rcases hce : calc_extra v e with _ | ⟨c0, rest⟩
  · exact Or.inl ⟨rfl, calc_extra_nil_real hce⟩
  · right
    have hc0mem : c0 ∈ calc_extra v e := by
      rw [hce]
      exact List.mem_cons_self _ _
    obtain ⟨hpath, hval, _⟩ := calc_extra_mem hc0mem
    exact ⟨c0, List.mem_cons_self _ _, hpath, hval⟩

/-- C5 (amended): the change calculation is idempotent only when the
written paths (`image.tag` under its guard, the extra-tag paths, and
`image.commit_sha` when a SHA is given) are pairwise independent
(no path equal to or nested under another); under that condition,
recomputing the changes on the document produced by applying the
first computation yields the empty list. -/
theorem calculate_tag_changes_idempotent
    (doc doc2 : Val) (image_tag : String) (extras : List ExtraTag)
    (sha : Option String) (cs : List TagChange)
    (hW : (writtenPaths image_tag extras sha).Pairwise (fun p q => indep p q = true))
    (h1 : calculate_tag_changes doc image_tag extras sha = .ok cs)
    (h2 : _apply_changes_to_data doc cs = .ok doc2) :
    calculate_tag_changes doc2 image_tag extras sha = .ok [] := by
  unfold calculate_tag_changes at h1
  rcases ha : calc_img doc image_tag with e | a <;> rw [ha] at h1
  · cases h1
  rcases hsha : calc_sha doc sha with e | csha <;> rw [hsha] at h1
  · cases h1
  have hcs : ((a ++ extras.flatMap (calc_extra doc)) ++ csha) = cs := by
    have h1' : (Except.ok ((a ++ extras.flatMap (calc_extra doc)) ++ csha)
        : Except String (List TagChange)) = Except.ok cs := h1
    exact Except.ok.inj h1'
  subst hcs
  have hsub : List.Sublist
      (((a ++ extras.flatMap (calc_extra doc)) ++ csha).map (fun c => partsOf c.path))
      (writtenPaths image_tag extras sha) := by
    rw [List.map_append, List.map_append]
    unfold writtenPaths
    rw [← List.append_assoc]
    exact List.Sublist.append
      (List.Sublist.append (calc_img_paths_sublist ha) (extra_paths_sublist doc extras))
      (calc_sha_paths_sublist hsha)
  have hpwcs : ((a ++ extras.flatMap (calc_extra doc)) ++ csha).Pairwise
      (fun c c' => indep (partsOf c.path) (partsOf c'.path) = true) :=
    List.pairwise_map.mp (hW.sublist hsub)
  unfold writtenPaths at hW
  rw [List.pairwise_append] at hW
  obtain ⟨hW1, hW23, h1_23⟩ := hW
  rw [List.pairwise_append] at hW23
  obtain ⟨hWe, hW3, he_3⟩ := hW23
  have hWe' : extras.Pairwise
      (fun e1 e2 => indep (partsOf e1.path) (partsOf e2.path) = true) :=
    List.pairwise_map.mp hWe
  have hsymE : Symmetric
      (fun e1 e2 : ExtraTag => indep (partsOf e1.path) (partsOf e2.path) = true) := by
    intro e1 e2 h
    rw [indep_comm]
    exact h
  have Gimg : calc_img doc2 image_tag = .ok [] := by
    by_cases hg : (image_tag ≠ "" && pyStrip image_tag ≠ "") = true
    · rcases calc_img_emit_or ha hg with ⟨hanil, hreal⟩ | ⟨c, hcmem, hcpath, hcval⟩
      · subst hanil
        refine calc_img_nil_of_pyGet hg ?_
        refine apply_preserves _ doc doc2 _ _ h2 ?_ hreal
        intro c hc
        rcases List.mem_append.mp hc with hc | hc
        · rcases List.mem_append.mp hc with hc | hc
          · exact absurd hc (List.not_mem_nil c)
          · obtain ⟨ex, hex, hcex⟩ := List.mem_flatMap.mp hc
            obtain ⟨hcp, _, _⟩ := calc_extra_mem hcex
            rw [hcp, indep_comm]
            exact h1_23 _ (by rw [if_pos hg]; exact List.mem_singleton.mpr rfl)
              _ (List.mem_append_left _ (List.mem_map.mpr ⟨ex, hex, rfl⟩))
        · obtain ⟨hcp, s, hs_eq, hs_ne, _⟩ := calc_sha_mem hsha hc
          rw [hcp, indep_comm]
          exact h1_23 _ (by rw [if_pos hg]; exact List.mem_singleton.mpr rfl)
            _ (List.mem_append_right _ (shaPathList_mem hs_eq hs_ne))
      · refine calc_img_nil_of_pyGet hg ?_
        have hw := apply_writes _ doc doc2 h2 hpwcs c
          (List.mem_append_left _ (List.mem_append_left _ hcmem))
        rw [hcpath, hcval] at hw
        exact hw
    · unfold calc_img
      rw [if_neg hg]
  have Gext : ∀ e ∈ extras, calc_extra doc2 e = [] := by
    intro ex hex
    rcases calc_extra_emit_or doc ex with ⟨hnil, hreal⟩ | ⟨c, hcmem, hcpath, hcval⟩
    · refine calc_extra_nil_of_pyGet ?_
      refine apply_preserves _ doc doc2 _ _ h2 ?_ hreal
      intro c hc
      rcases List.mem_append.mp hc with hc | hc
      · rcases List.mem_append.mp hc with hc | hc
        · obtain ⟨hcp, _, hg⟩ := calc_img_mem ha hc
          rw [hcp]
          exact h1_23 _ (by rw [if_pos hg]; exact List.mem_singleton.mpr rfl)
            _ (List.mem_append_left _ (List.mem_map.mpr ⟨ex, hex, rfl⟩))
        · obtain ⟨ex2, hex2, hcex2⟩ := List.mem_flatMap.mp hc
          by_cases hee : ex2 = ex
          · subst hee
            rw [hnil] at hcex2
            exact absurd hcex2 (List.not_mem_nil c)
          · obtain ⟨hcp, _, _⟩ := calc_extra_mem hcex2
            rw [hcp]
            exact hWe'.forall hsymE hex2 hex hee
      · obtain ⟨hcp, s, hs_eq, hs_ne, _⟩ := calc_sha_mem hsha hc
        rw [hcp, indep_comm]
        have h23 := he_3 _ (List.mem_map.mpr ⟨ex, hex, rfl⟩) _ (shaPathList_mem hs_eq hs_ne)
        exact h23
    · refine calc_extra_nil_of_pyGet ?_
      have hw := apply_writes _ doc doc2 h2 hpwcs c
        (List.mem_append_left _ (List.mem_append_right _ (List.mem_flatMap.mpr ⟨ex, hex, hcmem⟩)))
      rw [hcpath, hcval] at hw
      exact hw
  have Gsha : calc_sha doc2 sha = .ok [] := by
    rcases sha with _ | s
    · rfl
    by_cases hs : s = ""
    · unfold calc_sha
      simp only []
      rw [if_pos hs]
    rcases calc_sha_emit_or hsha hs with ⟨hcnil, hreal⟩ | ⟨c, hcmem, hcpath, hcval⟩
    · subst hcnil
      refine calc_sha_nil_of_pyGet ?_
      refine apply_preserves _ doc doc2 _ _ h2 ?_ hreal
      intro c hc
      rcases List.mem_append.mp hc with hc | hc
      · rcases List.mem_append.mp hc with hc | hc
        · obtain ⟨hcp, _, hg⟩ := calc_img_mem ha hc
          rw [hcp]
          exact h1_23 _ (by rw [if_pos hg]; exact List.mem_singleton.mpr rfl)
            _ (List.mem_append_right _ (shaPathList_mem rfl hs))
        · obtain ⟨ex, hex, hcex⟩ := List.mem_flatMap.mp hc
          obtain ⟨hcp, _, _⟩ := calc_extra_mem hcex
          rw [hcp]
          exact he_3 _ (List.mem_map.mpr ⟨ex, hex, rfl⟩) _ (shaPathList_mem rfl hs)
      · exact absurd hc (List.not_mem_nil c)
    · refine calc_sha_nil_of_pyGet ?_
      have hw := apply_writes _ doc doc2 h2 hpwcs c (List.mem_append_right _ hcmem)
      rw [hcpath, hcval] at hw
      exact hw
  unfold calculate_tag_changes
  rw [Gimg, Gsha]
  have hz : extras.flatMap (calc_extra doc2) = [] := List.flatMap_eq_nil_iff.mpr Gext
  show Except.ok (([] ++ extras.flatMap (calc_extra doc2)) ++ []) = Except.ok []
  rw [List.append_nil, List.nil_append, hz]

/-- C5 counterexample: with an extra tag aimed at the same `image.tag`
path as the main tag, the first computation emits two changes to one
path, applying them succeeds, and recomputing on the result is not
empty — so idempotence fails without the independence condition. -/
theorem calculate_tag_changes_idempotent_counterexample :
    calculate_tag_changes (Val.map []) "a" [{ path := "image.tag", value := "b" }] none
      = .ok [{ path := "image.tag", old_value := some "", new_value := "a",
               change_type := "image_tag" },
             { path := "image.tag", old_value := none, new_value := "b",
               change_type := "extra_tag" }]
    ∧ _apply_changes_to_data (Val.map [])
        [{ path := "image.tag", old_value := some "", new_value := "a",
           change_type := "image_tag" },
         { path := "image.tag", old_value := none, new_value := "b",
           change_type := "extra_tag" }]
      = .ok (Val.map [("image", Val.map [("tag", Val.str "b")])])
    ∧ calculate_tag_changes (Val.map [("image", Val.map [("tag", Val.str "b")])])
        "a" [{ path := "image.tag", value := "b" }] none ≠ .ok [] := by
  refine ⟨rfl, rfl, ?_⟩
  intro h
  have h' : (Except.ok [(⟨"image.tag", some "b", "a", "image_tag"⟩ : TagChange)]
      : Except String (List TagChange)) = Except.ok [] := h
  exact absurd (Except.ok.inj h') (List.cons_ne_nil _ _)

/-- C5 witness: the amended idempotence applied at a concrete input
with pairwise-independent written paths. -/
theorem calculate_tag_changes_idempotent_witness :
    calculate_tag_changes (Val.map [("image", Val.map [("tag", Val.str "dev-x")])])
      "dev-x" [] none = .ok [] :=
  calculate_tag_changes_idempotent (Val.map [])
    (Val.map [("image", Val.map [("tag", Val.str "dev-x")])]) "dev-x" [] none
    [{ path := "image.tag", old_value := some "", new_value := "dev-x",
       change_type := "image_tag" }]
    (by decide) rfl rfl
